import Mathlib

/-
Verification of the Loop day-graph engine (models/loop.py, models/graph.py,
engine/operators.py) against its specification.

Modelling conventions, used throughout:
- A Python `set[str]` is modelled as a `List String` considered up to
  membership; `set.add` is `List.insert`, `set.discard` removes all
  occurrences, `in` is list membership.
- A Python `dict` is modelled as an association list in insertion order with
  unique keys; assignment replaces in place or appends (`dictSet`).
- Python `int` bit vectors are `Nat`; machine words in SHA-256 are `Nat`
  reduced mod 2^32 (`w32`).
- Randomness (`random.choice`, `random.sample`) is modelled by an explicit
  choice oracle / position-list parameter ranging over every draw the Python
  RNG could make, so theorems quantify over all possible random outcomes.
- Unbounded `while` loops (the BFS in `find_paths`) take an explicit fuel
  parameter counting loop iterations; the verified properties hold for every
  fuel value, hence for the actual number of iterations of the Python loop.
-/

namespace LoopEng

/-- Python `sorted` on a collection of strings: lexicographic by code point,
which is exactly the `LinearOrder` on `String`. -/
def sortStrings (l : List String) : List String :=
  List.insertionSort (fun a b => a ≤ b) l

theorem sortStrings_eq_of_perm {l1 l2 : List String} (h : l1.Perm l2) :
    sortStrings l1 = sortStrings l2 := by
  apply List.eq_of_perm_of_sorted (r := fun a b : String => a ≤ b)
  · exact ((List.perm_insertionSort _ l1).trans h).trans
      (List.perm_insertionSort _ l2).symm
  · exact List.sorted_insertionSort _ l1
  · exact List.sorted_insertionSort _ l2

/-- Lowercase hex digit for a nibble, as produced by Python `hexdigest`. -/
def hexDigit (n : Nat) : Char :=
  if n < 10 then Char.ofNat (48 + n) else Char.ofNat (87 + n)

/-- Fixed-width big-endian hex rendering of `n` with `d` digits. -/
def toHexNibbles (n : Nat) : Nat → List Char
  | 0 => []
  | d + 1 => toHexNibbles (n / 16) d ++ [hexDigit (n % 16)]

def isHex (c : Char) : Bool :=
  ("0123456789abcdef".data).contains c

theorem toHexNibbles_length (n d : Nat) : (toHexNibbles n d).length = d := by
  induction d generalizing n with
  | zero => rfl
  | succ d ih => simp [toHexNibbles, ih]

theorem hexDigit_isHex {n : Nat} (h : n < 16) : isHex (hexDigit n) = true := by
  interval_cases n <;> decide

theorem toHexNibbles_isHex (n d : Nat) :
    ∀ c ∈ toHexNibbles n d, isHex c = true := by
  induction d generalizing n with
  | zero => simp [toHexNibbles]
  | succ d ih =>
    intro c hc
    simp only [toHexNibbles, List.mem_append, List.mem_singleton] at hc
    rcases hc with hc | hc
    · exact ih _ c hc
    · subst hc
      exact hexDigit_isHex (Nat.mod_lt _ (by norm_num))

-- === SHA-256 over byte lists (hashlib.sha256), words as Nat mod 2^32 ===

def w32 (n : Nat) : Nat := n % 4294967296

def rotr (n x : Nat) : Nat := w32 ((x >>> n) ||| (x <<< (32 - n)))

def bigSigma0 (x : Nat) : Nat := rotr 2 x ^^^ rotr 13 x ^^^ rotr 22 x

def bigSigma1 (x : Nat) : Nat := rotr 6 x ^^^ rotr 11 x ^^^ rotr 25 x

def smallSigma0 (x : Nat) : Nat := rotr 7 x ^^^ rotr 18 x ^^^ (x >>> 3)

def smallSigma1 (x : Nat) : Nat := rotr 17 x ^^^ rotr 19 x ^^^ (x >>> 10)

def sha256Ch (e f g : Nat) : Nat := (e &&& f) ^^^ ((e ^^^ 0xffffffff) &&& g)

def sha256Maj (a b c : Nat) : Nat := (a &&& b) ^^^ (a &&& c) ^^^ (b &&& c)

def sha256K : Array Nat := #[
  1116352408, 1899447441, 3049323471, 3921009573, 961987163, 1508970993,
  2453635748, 2870763221, 3624381080, 310598401, 607225278, 1426881987,
  1925078388, 2162078206, 2614888103, 3248222580, 3835390401, 4022224774,
  264347078, 604807628, 770255983, 1249150122, 1555081692, 1996064986,
  2554220882, 2821834349, 2952996808, 3210313671, 3336571891, 3584528711,
  113926993, 338241895, 666307205, 773529912, 1294757372, 1396182291,
  1695183700, 1986661051, 2177026350, 2456956037, 2730485921, 2820302411,
  3259730800, 3345764771, 3516065817, 3600352804, 4094571909, 275423344,
  430227734, 506948616, 659060556, 883997877, 958139571, 1322822218,
  1537002063, 1747873779, 1955562222, 2024104815, 2227730452, 2361852424,
  2428436474, 2756734187, 3204031479, 3329325298]

structure Sha256State where
  s0 : Nat
  s1 : Nat
  s2 : Nat
  s3 : Nat
  s4 : Nat
  s5 : Nat
  s6 : Nat
  s7 : Nat

def sha256Init : Sha256State :=
  ⟨1779033703, 3144134277, 1013904242, 2773480762,
   1359893119, 2600822924, 528734635, 1541459225⟩

def word32At (block : List Nat) (i : Nat) : Nat :=
  match block.drop (4 * i) with
  | b0 :: b1 :: b2 :: b3 :: _ => (b0 <<< 24) ||| (b1 <<< 16) ||| (b2 <<< 8) ||| b3
  | _ => 0

def sha256Schedule (block : List Nat) : Array Nat := Id.run do
  let mut w : Array Nat := Array.mkArray 64 0
  for i in [0:16] do
    w := w.set! i (word32At block i)
  for i in [16:64] do
    w := w.set! i (w32 (smallSigma1 w[i - 2]! + w[i - 7]! +
      smallSigma0 w[i - 15]! + w[i - 16]!))
  return w

def sha256Compress (st : Sha256State) (block : List Nat) : Sha256State := Id.run do
  let ws := sha256Schedule block
  let mut a := st.s0
  let mut b := st.s1
  let mut c := st.s2
  let mut d := st.s3
  let mut e := st.s4
  let mut f := st.s5
  let mut g := st.s6
  let mut h := st.s7
  for i in [0:64] do
    let t1 := w32 (h + bigSigma1 e + sha256Ch e f g + sha256K[i]! + ws[i]!)
    let t2 := w32 (bigSigma0 a + sha256Maj a b c)
    h := g
    g := f
    f := e
    e := w32 (d + t1)
    d := c
    c := b
    b := a
    a := w32 (t1 + t2)
  return ⟨w32 (st.s0 + a), w32 (st.s1 + b), w32 (st.s2 + c), w32 (st.s3 + d),
          w32 (st.s4 + e), w32 (st.s5 + f), w32 (st.s6 + g), w32 (st.s7 + h)⟩

/-- Merkle–Damgård padding: 0x80, zeros to 56 mod 64, 8-byte big-endian bit length. -/
def sha256Pad (msg : List Nat) : List Nat :=
  let len := msg.length
  let zeros := (64 - ((len + 9) % 64)) % 64
  msg ++ [0x80] ++ List.replicate zeros 0 ++
    (List.range 8).map (fun i => ((8 * len) >>> (8 * (7 - i))) % 256)

def toBlocks (l : List Nat) : List (List Nat) :=
  match l with
  | [] => []
  | x :: rest => (x :: rest).take 64 :: toBlocks ((x :: rest).drop 64)
termination_by l.length
decreasing_by simp [List.length_drop]; omega

def sha256Words (msg : List Nat) : List Nat :=
  let fin := (toBlocks (sha256Pad msg)).foldl sha256Compress sha256Init
  [fin.s0, fin.s1, fin.s2, fin.s3, fin.s4, fin.s5, fin.s6, fin.s7]

def sha256HexChars (msg : List Nat) : List Char :=
  ((sha256Words msg).map (fun x => toHexNibbles x 8)).flatten

/-- `hashlib.sha256(bytes).hexdigest()[:16]`. -/
def truncHash (msg : List Nat) : String :=
  String.mk ((sha256HexChars msg).take 16)

theorem sha256HexChars_length (msg : List Nat) :
    (sha256HexChars msg).length = 64 := by
  simp [sha256HexChars, sha256Words, toHexNibbles_length]

theorem truncHash_length (msg : List Nat) : (truncHash msg).length = 16 := by
  show ((sha256HexChars msg).take 16).length = 16
  simp [List.length_take, sha256HexChars_length]

theorem truncHash_isHex (msg : List Nat) :
    ∀ c ∈ (truncHash msg).data, isHex c = true := by
  intro c hc
  have hc2 : c ∈ sha256HexChars msg := List.take_subset _ _ hc
  simp only [sha256HexChars, List.mem_flatten, List.mem_map] at hc2
  obtain ⟨l, ⟨x, _, hl⟩, hcl⟩ := hc2
  exact toHexNibbles_isHex x 8 c (hl ▸ hcl)

-- === str.encode() : UTF-8 bytes ===

def utf8Char (c : Char) : List Nat :=
  let n := c.toNat
  if n < 0x80 then [n]
  else if n < 0x800 then [0xc0 ||| (n >>> 6), 0x80 ||| (n &&& 0x3f)]
  else if n < 0x10000 then
    [0xe0 ||| (n >>> 12), 0x80 ||| ((n >>> 6) &&& 0x3f), 0x80 ||| (n &&& 0x3f)]
  else
    [0xf0 ||| (n >>> 18), 0x80 ||| ((n >>> 12) &&& 0x3f),
     0x80 ||| ((n >>> 6) &&& 0x3f), 0x80 ||| (n &&& 0x3f)]

def utf8Encode (s : String) : List Nat := (s.data.map utf8Char).flatten

-- === json.dumps(..., sort_keys=True) for the hash payloads ===

/-- One character under Python json's default `ensure_ascii=True` escaping:
`"` and `\` get a backslash, the named control escapes are used, every other
character outside printable ASCII becomes `\uXXXX` (surrogate pairs above
the BMP). -/
def jsonEscapeChar (c : Char) : List Char :=
  if c = '"' then ['\\', '"']
  else if c = '\\' then ['\\', '\\']
  else if c = '\n' then ['\\', 'n']
  else if c = '\t' then ['\\', 't']
  else if c = '\r' then ['\\', 'r']
  else if c.toNat = 8 then ['\\', 'b']
  else if c.toNat = 12 then ['\\', 'f']
  else if c.toNat < 32 || 126 < c.toNat then
    if c.toNat < 0x10000 then '\\' :: 'u' :: toHexNibbles c.toNat 4
    else ('\\' :: 'u' :: toHexNibbles (0xd800 + (c.toNat - 0x10000) / 0x400) 4) ++
         ('\\' :: 'u' :: toHexNibbles (0xdc00 + (c.toNat - 0x10000) % 0x400) 4)
  else [c]

def jsonString (s : String) : String :=
  String.mk ('"' :: (s.data.map jsonEscapeChar).flatten ++ ['"'])

def jsonStringList (l : List String) : String :=
  "[" ++ String.intercalate ", " (l.map jsonString) ++ "]"

/-- The exact serialization hashed by `compute_outcome_hash`:
`json.dumps({"survivors": sorted(survivors), "deaths": sorted(deaths),
"state_changes": sorted(state_changes), "ending_type": ending_type},
sort_keys=True)`, whose keys appear alphabetically. -/
def serializeOutcome (survivors deaths state_changes : List String)
    (ending_type : String) : String :=
  "\x7b\"deaths\": " ++ jsonStringList (sortStrings deaths) ++
  ", \"ending_type\": " ++ jsonString ending_type ++
  ", \"state_changes\": " ++ jsonStringList (sortStrings state_changes) ++
  ", \"survivors\": " ++ jsonStringList (sortStrings survivors) ++ "\x7d"

/-- models/loop.py `compute_outcome_hash`: SHA-256 of the sorted-set JSON
serialization, truncated to 16 hex characters. The set arguments are lists
up to permutation (set iteration order). -/
def compute_outcome_hash (survivors deaths state_changes : List String)
    (ending_type : String) : String :=
  truncHash (utf8Encode (serializeOutcome survivors deaths state_changes ending_type))

/-- The serialization hashed by `compute_knowledge_id` (keys alphabetical). -/
def serializeKnowledge (facts secrets skills : List String) : String :=
  "\x7b\"facts\": " ++ jsonStringList (sortStrings facts) ++
  ", \"secrets\": " ++ jsonStringList (sortStrings secrets) ++
  ", \"skills\": " ++ jsonStringList (sortStrings skills) ++ "\x7d"

/-- models/loop.py `compute_knowledge_id`. -/
def compute_knowledge_id (facts secrets skills : List String) : String :=
  truncHash (utf8Encode (serializeKnowledge facts secrets skills))

theorem compute_outcome_hash_perm {s1 s2 d1 d2 c1 c2 : List String} (e : String)
    (hs : s1.Perm s2) (hd : d1.Perm d2) (hc : c1.Perm c2) :
    compute_outcome_hash s1 d1 c1 e = compute_outcome_hash s2 d2 c2 e := by
  unfold compute_outcome_hash serializeOutcome
  rw [sortStrings_eq_of_perm hs, sortStrings_eq_of_perm hd,
    sortStrings_eq_of_perm hc]

theorem compute_knowledge_id_perm {f1 f2 x1 x2 k1 k2 : List String}
    (hf : f1.Perm f2) (hx : x1.Perm x2) (hk : k1.Perm k2) :
    compute_knowledge_id f1 x1 k1 = compute_knowledge_id f2 x2 k2 := by
  unfold compute_knowledge_id serializeKnowledge
  rw [sortStrings_eq_of_perm hf, sortStrings_eq_of_perm hx,
    sortStrings_eq_of_perm hk]

/-- C1: for any two presentations of the same sets (any iteration order /
permutation of the same elements), `compute_outcome_hash` returns the same
string, and likewise `compute_knowledge_id`; both results are 16-character
strings made of hex digits. The hashes depend only on the set contents and
the `ending_type`, never on construction order. -/
theorem C1_hash_canonicalization
    (s1 s2 d1 d2 c1 c2 f1 f2 x1 x2 k1 k2 : List String) (e : String)
    (hs : s1.Perm s2) (hd : d1.Perm d2) (hc : c1.Perm c2)
    (hf : f1.Perm f2) (hx : x1.Perm x2) (hk : k1.Perm k2) :
    compute_outcome_hash s1 d1 c1 e = compute_outcome_hash s2 d2 c2 e ∧
    compute_knowledge_id f1 x1 k1 = compute_knowledge_id f2 x2 k2 ∧
    (compute_outcome_hash s1 d1 c1 e).length = 16 ∧
    (compute_knowledge_id f1 x1 k1).length = 16 ∧
    (∀ c ∈ (compute_outcome_hash s1 d1 c1 e).data, isHex c = true) ∧
    (∀ c ∈ (compute_knowledge_id f1 x1 k1).data, isHex c = true) := by
  refine ⟨compute_outcome_hash_perm e hs hd hc,
    compute_knowledge_id_perm hf hx hk, ?_, ?_, ?_, ?_⟩
  · exact truncHash_length _
  · exact truncHash_length _
  · exact truncHash_isHex _
  · exact truncHash_isHex _

/-- Witness for C1 at concrete inputs: the survivor set `{"b", "a"}` in two
iteration orders, death/state sets in two orders as well. -/
theorem C1_hash_canonicalization_witness :
    (["b", "a"].Perm ["a", "b"]) ∧
    (compute_outcome_hash ["b", "a"] ["c", "d"] ["e", "f"] "death" =
      compute_outcome_hash ["a", "b"] ["d", "c"] ["f", "e"] "death" ∧
    compute_knowledge_id ["b", "a"] ["c", "d"] ["e", "f"] =
      compute_knowledge_id ["a", "b"] ["d", "c"] ["f", "e"] ∧
    (compute_outcome_hash ["b", "a"] ["c", "d"] ["e", "f"] "death").length = 16 ∧
    (compute_knowledge_id ["b", "a"] ["c", "d"] ["e", "f"]).length = 16 ∧
    (∀ c ∈ (compute_outcome_hash ["b", "a"] ["c", "d"] ["e", "f"] "death").data,
      isHex c = true) ∧
    (∀ c ∈ (compute_knowledge_id ["b", "a"] ["c", "d"] ["e", "f"]).data,
      isHex c = true)) :=
  ⟨by decide,
   C1_hash_canonicalization _ _ _ _ _ _ _ _ _ _ _ _ "death"
     (by decide) (by decide) (by decide) (by decide) (by decide) (by decide)⟩

-- === Python string primitives used by the predicate/effect grammar ===

/-- Python `s.startswith(p)`. -/
def strStarts (s p : String) : Bool := List.isPrefixOf p.data s.data

/-- Python `s[n:]`. -/
def strDrop (s : String) (n : Nat) : String := String.mk (s.data.drop n)

-- === Python dict as association list (insertion order, unique keys) ===

/-- Python `d[k] = v`: replace in place if the key exists, else append. -/
def dictSet {κ α : Type} [BEq κ] (l : List (κ × α)) (k : κ) (v : α) :
    List (κ × α) :=
  if l.any (fun p => p.1 == k) then
    l.map (fun p => if p.1 == k then (k, v) else p)
  else l ++ [(k, v)]

/-- Python `d.get(k)` / `d[k]`. -/
def dictFind {κ α : Type} [BEq κ] (l : List (κ × α)) (k : κ) : Option α :=
  (l.find? (fun p => p.1 == k)).map (fun p => p.2)

/-- Python `k in d`. -/
def isKey {κ α : Type} [BEq κ] (l : List (κ × α)) (k : κ) : Bool :=
  l.any (fun p => p.1 == k)

/-- Python `del d[k]`. -/
def dictErase {κ α : Type} [BEq κ] (l : List (κ × α)) (k : κ) : List (κ × α) :=
  l.filter (fun p => !(p.1 == k))

-- === Graph primitives (models/graph.py) ===

inductive NodeType where
  | critical
  | soft
  | death
  | revelation
deriving DecidableEq, Repr

structure EventNode where
  id : String
  name : String
  description : String
  time_slot : Int
  node_type : NodeType
  location : String
  preconditions : List String
  effects : List String
deriving DecidableEq, Repr

def EventNode.is_critical (n : EventNode) : Bool := n.node_type == NodeType.critical

def EventNode.is_death (n : EventNode) : Bool := n.node_type == NodeType.death

def EventNode.is_revelation (n : EventNode) : Bool := n.node_type == NodeType.revelation

/-- One precondition check of `EventNode.can_enter` (the loop body; returning
`false` there makes the whole conjunction false). -/
def precondOK (knowledge world_state : List String) (precond : String) : Bool :=
  if strStarts precond "KNOW:" then decide (strDrop precond 5 ∈ knowledge)
  else if strStarts precond "NOT:" then
    !(decide (strDrop precond 4 ∈ knowledge) || decide (strDrop precond 4 ∈ world_state))
  else if strStarts precond "AT:" then true
  else decide (precond ∈ world_state) || decide (precond ∈ knowledge)

def EventNode.can_enter (node : EventNode)
    (knowledge world_state : List String) : Bool :=
  node.preconditions.all (precondOK knowledge world_state)

/-- One effect application of `EventNode.apply_effects` (the loop body). -/
def applyEffect (kw : List String × List String) (effect : String) :
    List String × List String :=
  if strStarts effect "LEARN:" then (kw.1.insert (strDrop effect 6), kw.2)
  else if strStarts effect "SET:" then (kw.1, kw.2.insert (strDrop effect 4))
  else if strStarts effect "UNSET:" then
    (kw.1, kw.2.filter (fun x => x != strDrop effect 6))
  else (kw.1, kw.2.insert effect)

def EventNode.apply_effects (node : EventNode)
    (knowledge world_state : List String) : List String × List String :=
  node.effects.foldl applyEffect (knowledge, world_state)

structure Transition where
  from_node : String
  to_node : String
  time_cost : Int
  conditions : List String
  probability : ℚ
deriving DecidableEq, Repr

/-- One condition check of `Transition.can_traverse` (the loop body).
`NOT:KNOW:` is tested before the plain `NOT:` prefix. -/
def condOK (knowledge world_state : List String) (cond : String) : Bool :=
  if strStarts cond "KNOW:" then decide (strDrop cond 5 ∈ knowledge)
  else if strStarts cond "NOT:KNOW:" then !(decide (strDrop cond 9 ∈ knowledge))
  else if strStarts cond "NOT:" then !(decide (strDrop cond 4 ∈ world_state))
  else decide (cond ∈ world_state) || decide (cond ∈ knowledge)

def Transition.can_traverse (t : Transition)
    (knowledge world_state : List String) : Bool :=
  t.conditions.all (condOK knowledge world_state)

-- === String computation lemmas for the prefix grammar ===

theorem data_NOT_append (item : String) :
    ("NOT:" ++ item).data = 'N' :: 'O' :: 'T' :: ':' :: item.data := by
  rw [String.data_append]
  rfl

theorem strStarts_NOT_KNOW (item : String) :
    strStarts ("NOT:" ++ item) "KNOW:" = false := by
  simp only [strStarts, data_NOT_append]
  rfl

theorem strStarts_NOT_NOT (item : String) :
    strStarts ("NOT:" ++ item) "NOT:" = true := by
  simp only [strStarts, data_NOT_append]
  induction item.data with
  | nil => rfl
  | cons c l _ => rfl

theorem strStarts_NOT_NOTKNOW (item : String) :
    strStarts ("NOT:" ++ item) "NOT:KNOW:" = strStarts item "KNOW:" := by
  simp only [strStarts, data_NOT_append]
  rfl

theorem strDrop_NOT (item : String) : strDrop ("NOT:" ++ item) 4 = item := by
  simp only [strDrop, data_NOT_append, List.drop_succ_cons, List.drop_zero]

/-- C10 amended part: for an item that does not itself carry the `KNOW:`
prefix, a transition condition `NOT:item` blocks traversal exactly when the
item is in the world state (knowledge-only presence does not block), while a
node precondition `NOT:item` blocks entry exactly when the item is in
knowledge or in the world state. -/
theorem C10_not_semantics_asymmetric (item : String)
    (knowledge world_state : List String)
    (hitem : strStarts item "KNOW:" = false) (t : Transition) (node : EventNode)
    (ht : t.conditions = ["NOT:" ++ item])
    (hn : node.preconditions = ["NOT:" ++ item]) :
    (t.can_traverse knowledge world_state = false ↔ item ∈ world_state) ∧
    (node.can_enter knowledge world_state = false ↔
      (item ∈ knowledge ∨ item ∈ world_state)) := by
  constructor
  · simp only [Transition.can_traverse, ht, List.all_cons, List.all_nil,
      Bool.and_true, condOK, strStarts_NOT_KNOW, strStarts_NOT_NOTKNOW, hitem,
      strStarts_NOT_NOT, strDrop_NOT, Bool.false_eq_true, if_false, if_true]
    by_cases h : item ∈ world_state <;> simp [h]
  · simp only [EventNode.can_enter, hn, List.all_cons, List.all_nil,
      Bool.and_true, precondOK, strStarts_NOT_KNOW, strStarts_NOT_NOT,
      strDrop_NOT, Bool.false_eq_true, if_false, if_true]
    by_cases h1 : item ∈ knowledge <;> by_cases h2 : item ∈ world_state <;>
      simp [h1, h2]

/-- Witness for C10 at concrete inputs: item `"x"` known but not a world
fact does not block the transition, yet blocks node entry. -/
theorem C10_not_semantics_asymmetric_witness :
    (strStarts "x" "KNOW:" = false) ∧
    ((Transition.can_traverse ⟨"a", "b", 1, ["NOT:" ++ "x"], 1⟩ ["x"] [] = false ↔
        "x" ∈ ([] : List String)) ∧
     (EventNode.can_enter
        ⟨"e", "e", "", 0, NodeType.soft, "", ["NOT:" ++ "x"], []⟩ ["x"] [] = false ↔
        ("x" ∈ (["x"] : List String) ∨ "x" ∈ ([] : List String)))) :=
  ⟨by decide,
   C10_not_semantics_asymmetric "x" ["x"] [] (by decide) _ _ rfl rfl⟩

/-- C10 counterexample: the claim quantifies over every item, but for
`item = "KNOW:f"` the condition string `NOT:KNOW:f` is parsed by
`can_traverse` as the `NOT:KNOW:` form, so it returns `false` although the
item is not in the world state (it blocks on knowledge alone). -/
theorem C10_counterexample :
    Transition.can_traverse ⟨"a", "b", 1, ["NOT:" ++ "KNOW:f"], 1⟩ ["f"] [] = false ∧
    "KNOW:f" ∉ ([] : List String) := by
  decide

-- === WorldState (models/graph.py) ===

structure WorldState where
  time_slot : Int
  current_node : Option String
  location : String
  knowledge : List String
  world_facts : List String
  visited_nodes : List String
  is_dead : Bool
  death_node : Option String
deriving DecidableEq, Repr

/-- A `WorldState()` with the given starting sets (all other fields default). -/
def freshWorldState (knowledge world_facts : List String) : WorldState :=
  ⟨0, none, "", knowledge, world_facts, [], false, none⟩

def WorldState.visit_node (st : WorldState) (node : EventNode) : WorldState :=
  let kw := node.apply_effects st.knowledge st.world_facts
  let st2 : WorldState := { st with
    current_node := some node.id
    time_slot := node.time_slot
    location := node.location
    visited_nodes := st.visited_nodes ++ [node.id]
    knowledge := kw.1
    world_facts := kw.2 }
  if node.is_death then { st2 with is_dead := true, death_node := some node.id }
  else st2

theorem visit_node_is_dead (st : WorldState) (node : EventNode) :
    (st.visit_node node).is_dead = (node.is_death || st.is_dead) := by
  unfold WorldState.visit_node
  cases h : node.is_death <;> simp [h]

-- === DayGraph (models/graph.py) ===

/-- The day graph: the node dict, the transition list and the two derived
adjacency caches (`_edges_from`, `_edges_to`). The pure-metadata fields
(`characters`, `locations`, `discoverable_facts`, `world_state_facts`,
`version`) play no part in any verified operation and are omitted. -/
structure DayGraph where
  name : String
  description : String
  total_time_slots : Int
  nodes : List (String × EventNode)
  transitions : List Transition
  edges_from : List (String × List Transition)
  edges_to : List (String × List Transition)
deriving DecidableEq, Repr

/-- Python `d[k].append(t)` on a dict of lists, a no-op when the key is
absent (`_build_edge_cache` guards the append with a membership test). -/
def appendAt (l : List (String × List Transition)) (k : String)
    (t : Transition) : List (String × List Transition) :=
  l.map (fun p => if p.1 == k then (p.1, p.2 ++ [t]) else p)

/-- `DayGraph._build_edge_cache`: reset both caches to empty lists per node
id, then append every transition whose endpoint is a known node id. -/
def DayGraph.build_edge_cache (g : DayGraph) : DayGraph :=
  let ef0 : List (String × List Transition) := g.nodes.map (fun p => (p.1, []))
  let et0 : List (String × List Transition) := g.nodes.map (fun p => (p.1, []))
  { g with
    edges_from := g.transitions.foldl (fun acc t => appendAt acc t.from_node t) ef0
    edges_to := g.transitions.foldl (fun acc t => appendAt acc t.to_node t) et0 }

/-- Fresh construction (`DayGraph(...)` followed by `model_post_init`,
which builds the edge caches). -/
def DayGraph.fresh (name description : String) (total_time_slots : Int)
    (nodes : List (String × EventNode)) (transitions : List Transition) :
    DayGraph :=
  DayGraph.build_edge_cache
    ⟨name, description, total_time_slots, nodes, transitions, [], []⟩

def DayGraph.add_node (g : DayGraph) (node : EventNode) : DayGraph :=
  { g with
    nodes := dictSet g.nodes node.id node
    edges_from := dictSet g.edges_from node.id []
    edges_to := dictSet g.edges_to node.id [] }

def DayGraph.remove_node (g : DayGraph) (node_id : String) : DayGraph × Bool :=
  if isKey g.nodes node_id then
    (DayGraph.build_edge_cache
      { g with
        nodes := dictErase g.nodes node_id
        transitions := g.transitions.filter
          (fun t => !(t.from_node == node_id) && !(t.to_node == node_id)) },
     true)
  else (g, false)

def DayGraph.get_node (g : DayGraph) (node_id : String) : Option EventNode :=
  dictFind g.nodes node_id

def DayGraph.add_transition (g : DayGraph) (t : Transition) : DayGraph × Bool :=
  if !(isKey g.nodes t.from_node) then (g, false)
  else if !(isKey g.nodes t.to_node) then (g, false)
  else
    ({ g with
       transitions := g.transitions ++ [t]
       edges_from := appendAt g.edges_from t.from_node t
       edges_to := appendAt g.edges_to t.to_node t },
     true)

def DayGraph.remove_transition (g : DayGraph) (from_node to_node : String) :
    DayGraph × Bool :=
  let ts := g.transitions.filter
    (fun t => !(t.from_node == from_node && t.to_node == to_node))
  if ts.length < g.transitions.length then
    (DayGraph.build_edge_cache { g with transitions := ts }, true)
  else ({ g with transitions := ts }, false)

def DayGraph.get_transitions_from (g : DayGraph) (node_id : String) :
    List Transition :=
  (dictFind g.edges_from node_id).getD []

def DayGraph.get_transitions_to (g : DayGraph) (node_id : String) :
    List Transition :=
  (dictFind g.edges_to node_id).getD []

def DayGraph.get_nodes_by_type (g : DayGraph) (nt : NodeType) : List EventNode :=
  (g.nodes.map (fun p => p.2)).filter (fun n => n.node_type == nt)

def DayGraph.get_nodes_at_time (g : DayGraph) (t : Int) : List EventNode :=
  (g.nodes.map (fun p => p.2)).filter (fun n => n.time_slot == t)

def DayGraph.get_death_nodes (g : DayGraph) : List EventNode :=
  g.get_nodes_by_type NodeType.death

def DayGraph.get_revelation_nodes (g : DayGraph) : List EventNode :=
  g.get_nodes_by_type NodeType.revelation

/-- `nodes_at_zero[0] if nodes_at_zero else None`. -/
def DayGraph.get_start_node (g : DayGraph) : Option EventNode :=
  (g.get_nodes_at_time 0).head?

def DayGraph.get_valid_choices (g : DayGraph) (current_node : String)
    (knowledge world_state : List String) : List Transition :=
  (g.get_transitions_from current_node).filter (fun trans =>
    trans.can_traverse knowledge world_state &&
      (match g.get_node trans.to_node with
       | some target => target.can_enter knowledge world_state
       | none => false))

-- === simulate_loop (deterministic mode) ===

structure SimulationResult where
  success : Bool
  final_state : Option WorldState
  decision_trace : List String
  knowledge_gained : List String
  outcome_hash : String
  knowledge_id : String
  terminated_early : Bool
  death_node : Option String
  error_message : Option String
deriving DecidableEq, Repr

/-- The step-validation of `simulate_loop` for a non-first step: an edge
from the previous node must exist and its conditions must hold. Returns the
error message on failure. -/
def edgeCheck (g : DayGraph) (prev : Option String) (state : WorldState)
    (node_id : String) : Option String :=
  match prev with
  | none => none
  | some p =>
    match (g.get_transitions_from p).filter (fun t => t.to_node == node_id) with
    | [] => some ("No transition from " ++ p ++ " to " ++ node_id)
    | t :: _ =>
      if t.can_traverse state.knowledge state.world_facts then none
      else some ("Conditions not met for " ++ p ++ " -> " ++ node_id)

structure WalkOut where
  state : WorldState
  trace : List String
  success : Bool
  terminated_early : Bool
  death_node : Option String
  error_message : Option String

/-- The decision-walking loop of `simulate_loop` with `probabilistic=False`
(the mode every operator uses; the probability-roll branch is never taken
then). Checks, in order: node exists, edge from the previous node exists,
edge conditions hold, node preconditions hold; visits the node and stops
on death. A total function: no branch raises. -/
def DayGraph.simWalk (g : DayGraph) (prev : Option String) (state : WorldState) :
    List String → WalkOut
  | [] => ⟨state, [], true, false, none, none⟩
  | node_id :: rest =>
    match g.get_node node_id with
    | none => ⟨state, [], false, true, none, some ("Node not found: " ++ node_id)⟩
    | some node =>
      match edgeCheck g prev state node_id with
      | some msg => ⟨state, [], false, true, none, some msg⟩
      | none =>
        if node.can_enter state.knowledge state.world_facts then
          let state2 := state.visit_node node
          if state2.is_dead then ⟨state2, [node_id], true, false, some node_id, none⟩
          else
            let out := g.simWalk (some node_id) state2 rest
            { out with trace := node_id :: out.trace }
        else
          ⟨state, [], false, true, none,
           some ("Cannot enter " ++ node_id ++ ": preconditions not met")⟩

/-- `DayGraph.simulate_loop(decisions, initial_knowledge, initial_world,
probabilistic=False)`: walk the decisions, then compute outcome/knowledge
hashes from the final state. -/
def DayGraph.simulate_loop (g : DayGraph)
    (decisions initial_knowledge initial_world : List String) :
    SimulationResult :=
  let state0 := freshWorldState initial_knowledge initial_world
  let out := g.simWalk none state0 decisions
  let state := out.state
  let survivors :=
    (if decide ("SISTER_ALIVE" ∈ state.world_facts) then ["SISTER"] else []) ++
    (if state.is_dead then [] else ["PROTAGONIST"]) ++
    (if decide ("VILLAIN_ESCAPED" ∈ state.world_facts) then ["VILLAIN"] else [])
  let deaths :=
    (if decide ("SISTER_DEAD" ∈ state.world_facts) then ["SISTER"] else []) ++
    (if state.is_dead then ["PROTAGONIST"] else []) ++
    (if decide ("VILLAIN_CAUGHT" ∈ state.world_facts) then ["VILLAIN"] else [])
  let ending :=
    if decide ("BOMB_EXPLODED" ∈ state.world_facts) then "explosion"
    else if state.is_dead then "death" else "survived"
  { success := out.success
    final_state := some state
    decision_trace := out.trace
    knowledge_gained := state.knowledge.filter (fun k => decide (k ∉ initial_knowledge))
    outcome_hash := compute_outcome_hash survivors deaths state.world_facts ending
    knowledge_id := compute_knowledge_id state.knowledge [] []
    terminated_early := out.terminated_early
    death_node := out.death_node
    error_message := out.error_message }

theorem simWalk_spec (g : DayGraph) :
    ∀ (ds : List String) (prev : Option String) (state : WorldState),
    state.is_dead = false →
    ((g.simWalk prev state ds).success = false ↔
      (g.simWalk prev state ds).terminated_early = true) ∧
    (g.simWalk prev state ds).trace <+: ds ∧
    ((g.simWalk prev state ds).success = true →
      (g.simWalk prev state ds).death_node = none →
      (g.simWalk prev state ds).trace = ds) ∧
    (∀ d, (g.simWalk prev state ds).death_node = some d →
      ∃ node, g.get_node d = some node ∧ node.is_death = true ∧
        (g.simWalk prev state ds).trace.getLast? = some d) ∧
    ((g.simWalk prev state ds).death_node = none →
      ∀ d ∈ (g.simWalk prev state ds).trace, ∀ node,
        g.get_node d = some node → node.is_death = false) := by
  intro ds
  induction ds with
  | nil => intro prev state _; simp [DayGraph.simWalk]
  | cons node_id rest ih =>
    intro prev state hdead
    cases hg : g.get_node node_id with
    | none => simp [DayGraph.simWalk, hg]
    | some node =>
      cases he : edgeCheck g prev state node_id with
      | some msg => simp [DayGraph.simWalk, hg, he]
      | none =>
        cases hce : node.can_enter state.knowledge state.world_facts with
        | false => simp [DayGraph.simWalk, hg, he, hce]
        | true =>
          have hvd : (state.visit_node node).is_dead = node.is_death := by
            rw [visit_node_is_dead, hdead, Bool.or_false]
          cases hd2 : (state.visit_node node).is_dead with
          | true =>
            simp only [DayGraph.simWalk, hg, he, hce, hd2, if_true]
            refine ⟨by simp, by simp, by simp, ?_, by simp⟩
            intro d hd
            simp only [Option.some_inj] at hd
            subst hd
            exact ⟨node, hg, by rw [← hvd, hd2], by simp⟩
          | false =>
            obtain ⟨i1, i2, i3, i4, i5⟩ := ih (some node_id) (state.visit_node node) hd2
            have hw : g.simWalk prev state (node_id :: rest) =
                { state := (g.simWalk (some node_id) (state.visit_node node) rest).state
                  trace := node_id :: (g.simWalk (some node_id) (state.visit_node node) rest).trace
                  success := (g.simWalk (some node_id) (state.visit_node node) rest).success
                  terminated_early :=
                    (g.simWalk (some node_id) (state.visit_node node) rest).terminated_early
                  death_node := (g.simWalk (some node_id) (state.visit_node node) rest).death_node
                  error_message :=
                    (g.simWalk (some node_id) (state.visit_node node) rest).error_message } := by
              simp [DayGraph.simWalk, hg, he, hce, hd2]
            rw [hw]
            refine ⟨i1, List.cons_prefix_cons.mpr ⟨rfl, i2⟩, ?_, ?_, ?_⟩
            · intro hs hd
              show node_id :: (g.simWalk (some node_id) (state.visit_node node) rest).trace =
                node_id :: rest
              rw [i3 hs hd]
            · intro d hd
              obtain ⟨nd, hnd, hnd2, hlast⟩ := i4 d hd
              refine ⟨nd, hnd, hnd2, ?_⟩
              show (node_id :: (g.simWalk (some node_id) (state.visit_node node) rest).trace).getLast? =
                some d
              cases htr : (g.simWalk (some node_id) (state.visit_node node) rest).trace with
              | nil => rw [htr] at hlast; simp at hlast
              | cons a l =>
                rw [htr] at hlast
                rw [List.getLast?_cons_cons]
                exact hlast
            · intro hdn d hd nd hnd
              rcases List.mem_cons.mp hd with hd | hd
              · subst hd
                rw [hg] at hnd
                cases hnd
                rw [← hvd, hd2]
              · exact i5 hdn d hd nd hnd

/-- C2: `simulate_loop` with `probabilistic=false` validates each step in
order; on the first violated check it returns `success=false` and
`terminated_early=true` and stops the walk (the decision trace is a prefix
of the decisions, and equals them only if nothing stopped it); it is a
total function, so it never raises; reaching a death node stops the walk
with `death_node` set to that (death) node, which is the last one visited,
and when no death is recorded no visited node was a death node. -/
theorem C2_simulate_loop_failfast (g : DayGraph)
    (ds ik iw : List String) :
    ((g.simulate_loop ds ik iw).success = false ↔
      (g.simulate_loop ds ik iw).terminated_early = true) ∧
    (g.simulate_loop ds ik iw).decision_trace <+: ds ∧
    ((g.simulate_loop ds ik iw).success = true →
      (g.simulate_loop ds ik iw).death_node = none →
      (g.simulate_loop ds ik iw).decision_trace = ds) ∧
    (∀ d, (g.simulate_loop ds ik iw).death_node = some d →
      ∃ node, g.get_node d = some node ∧ node.is_death = true ∧
        (g.simulate_loop ds ik iw).decision_trace.getLast? = some d) ∧
    ((g.simulate_loop ds ik iw).death_node = none →
      ∀ d ∈ (g.simulate_loop ds ik iw).decision_trace, ∀ node,
        g.get_node d = some node → node.is_death = false) := by
  have h := simWalk_spec g ds none (freshWorldState ik iw) rfl
  simpa [DayGraph.simulate_loop] using h

/-- Witness for C2 at a concrete graph and decision list (the fail-fast
equivalence at an empty graph, where the single decision is unknown). -/
theorem C2_simulate_loop_failfast_witness :
    (((DayGraph.fresh "g" "" 12 [] []).simulate_loop ["s"] [] []).success = false ↔
      ((DayGraph.fresh "g" "" 12 [] []).simulate_loop ["s"] [] []).terminated_early = true) :=
  (C2_simulate_loop_failfast (DayGraph.fresh "g" "" 12 [] []) ["s"] [] []).1

-- === C9: adjacency caches vs the transitions list ===

def nodeKeys (g : DayGraph) : List String := g.nodes.map (fun p => p.1)

/-- A topology mutation of the graph (the four public mutators). -/
inductive GraphOp where
  | addNode (node : EventNode)
  | removeNode (node_id : String)
  | addTransition (t : Transition)
  | removeTransition (from_node to_node : String)
deriving DecidableEq, Repr

def applyOp (g : DayGraph) : GraphOp → DayGraph
  | .addNode node => g.add_node node
  | .removeNode node_id => (g.remove_node node_id).1
  | .addTransition t => (g.add_transition t).1
  | .removeTransition a b => (g.remove_transition a b).1

def applyOps (g : DayGraph) (ops : List GraphOp) : DayGraph :=
  ops.foldl applyOp g

/-- Every `add_node` in the sequence uses an id not present at that moment. -/
def freshAdds (g : DayGraph) : List GraphOp → Bool
  | [] => true
  | op :: rest =>
    (match op with
     | .addNode node => !(isKey g.nodes node.id)
     | _ => true) && freshAdds (applyOp g op) rest

/-- The caches agree with the transitions list on every node id. -/
def CacheOK (g : DayGraph) : Prop :=
  ∀ n ∈ nodeKeys g,
    g.get_transitions_from n = g.transitions.filter (fun t => t.from_node == n) ∧
    g.get_transitions_to n = g.transitions.filter (fun t => t.to_node == n)

/-- The inductive invariant: unique node ids, cache dicts keyed exactly by
the node ids, transition endpoints all known, and cache agreement. -/
def GraphInv (g : DayGraph) : Prop :=
  (nodeKeys g).Nodup ∧
  g.edges_from.map (fun p => p.1) = nodeKeys g ∧
  g.edges_to.map (fun p => p.1) = nodeKeys g ∧
  (∀ t ∈ g.transitions, t.from_node ∈ nodeKeys g ∧ t.to_node ∈ nodeKeys g) ∧
  CacheOK g

instance (g : DayGraph) : Decidable (CacheOK g) := by
  unfold CacheOK
  infer_instance

instance (g : DayGraph) : Decidable (GraphInv g) := by
  unfold GraphInv
  infer_instance

theorem keys_appendAt (l : List (String × List Transition)) (j : String)
    (t : Transition) :
    (appendAt l j t).map (fun p => p.1) = l.map (fun p => p.1) := by
  induction l with
  | nil => rfl
  | cons p rest ih =>
    simp only [appendAt, List.map_cons] at *
    by_cases h : p.1 == j <;> simp_all

theorem dictFind_appendAt (l : List (String × List Transition)) (j k : String)
    (t : Transition) :
    dictFind (appendAt l j t) k =
      if j = k then (dictFind l k).map (fun v => v ++ [t]) else dictFind l k := by
  induction l with
  | nil => by_cases h : j = k <;> simp [appendAt, dictFind, h]
  | cons p rest ih =>
    by_cases hpj : p.1 = j <;> by_cases hpk : p.1 = k <;>
      by_cases hjk : j = k <;>
      simp_all [appendAt, dictFind, List.find?_cons]

theorem dictFind_foldl_appendAt (sel : Transition → String) (ts : List Transition) :
    ∀ (acc : List (String × List Transition)) (k : String),
    dictFind (ts.foldl (fun a t => appendAt a (sel t) t) acc) k =
      (dictFind acc k).map (fun v => v ++ ts.filter (fun t => sel t == k)) := by
  induction ts with
  | nil =>
    intro acc k
    cases h : dictFind acc k <;> simp [h]
  | cons t ts ih =>
    intro acc k
    simp only [List.foldl_cons]
    rw [ih, dictFind_appendAt]
    by_cases h : sel t = k
    · cases hf : dictFind acc k <;>
        simp [h, hf, List.filter_cons]
    · cases hf : dictFind acc k <;>
        simp [h, hf, List.filter_cons]

theorem dictFind_cons {κ α : Type} [BEq κ] [LawfulBEq κ] [DecidableEq κ] (p : κ × α)
    (rest : List (κ × α)) (k : κ) :
    dictFind (p :: rest) k = if p.1 = k then some p.2 else dictFind rest k := by
  unfold dictFind
  rw [List.find?_cons]
  by_cases h : p.1 = k
  · simp [h]
  · have hb : (p.1 == k) = false := by simpa using h
    rw [hb, if_neg h]

theorem dictFind_map_nil (nodes : List (String × EventNode)) (k : String) :
    dictFind (nodes.map (fun p => (p.1, ([] : List Transition)))) k =
      if k ∈ nodes.map (fun p => p.1) then some [] else none := by
  induction nodes with
  | nil => simp [dictFind]
  | cons p rest ih =>
    simp only [List.map_cons, dictFind_cons, List.mem_cons]
    by_cases h : p.1 = k
    · simp [h]
    · have hne : ¬(k = p.1) := fun hc => h hc.symm
      rw [if_neg h, ih]
      by_cases h2 : k ∈ rest.map (fun p => p.1)
      · rw [if_pos h2, if_pos (Or.inr h2)]
      · rw [if_neg h2, if_neg (fun hc => hc.elim hne h2)]

theorem dictFind_isSome_iff {κ α : Type} [BEq κ] [LawfulBEq κ] [DecidableEq κ]
    (l : List (κ × α)) (k : κ) :
    (∃ v, dictFind l k = some v) ↔ k ∈ l.map (fun p => p.1) := by
  induction l with
  | nil => simp [dictFind]
  | cons p rest ih =>
    simp only [List.map_cons, dictFind_cons, List.mem_cons]
    by_cases h : p.1 = k
    · simp [h]
    · have hne : ¬(k = p.1) := fun hc => h hc.symm
      simp [h, hne, ih]

theorem dictFind_append_left (l1 l2 : List (String × List Transition))
    (k : String) (h : k ∈ l1.map (fun p => p.1)) :
    dictFind (l1 ++ l2) k = dictFind l1 k := by
  induction l1 with
  | nil => simp at h
  | cons p rest ih =>
    by_cases hp : p.1 = k
    · simp [List.cons_append, dictFind_cons, hp]
    · have hne : ¬(k = p.1) := fun hc => hp hc.symm
      have h2 : k ∈ rest.map (fun p => p.1) := by
        simp only [List.map_cons, List.mem_cons] at h
        exact h.resolve_left hne
      simp only [List.cons_append, dictFind_cons, if_neg hp]
      exact ih h2

theorem dictFind_append_right (l1 l2 : List (String × List Transition))
    (k : String) (h : k ∉ l1.map (fun p => p.1)) :
    dictFind (l1 ++ l2) k = dictFind l2 k := by
  induction l1 with
  | nil => simp [dictFind]
  | cons p rest ih =>
    have hp : ¬(p.1 = k) := by
      intro hc
      exact h (by simp [hc])
    have h2 : k ∉ rest.map (fun p => p.1) := by
      intro hc
      exact h (by simp [hc])
    simp only [List.cons_append, dictFind_cons, if_neg hp]
    exact ih h2

theorem dictSet_fresh {κ α : Type} [BEq κ] [LawfulBEq κ]
    (l : List (κ × α)) (k : κ) (v : α) (h : k ∉ l.map (fun p => p.1)) :
    dictSet l k v = l ++ [(k, v)] := by
  unfold dictSet
  rw [if_neg]
  simp only [List.any_eq_true, beq_iff_eq, not_exists]
  intro p hp
  exact h (hp.2 ▸ List.mem_map_of_mem _ hp.1)

theorem isKey_iff {κ α : Type} [BEq κ] [LawfulBEq κ]
    (l : List (κ × α)) (k : κ) :
    isKey l k = true ↔ k ∈ l.map (fun p => p.1) := by
  simp [isKey, List.any_eq_true]

theorem keys_dictErase (l : List (String × EventNode)) (k : String) :
    (dictErase l k).map (fun p => p.1) =
      (l.map (fun p => p.1)).filter (fun x => !(x == k)) := by
  induction l with
  | nil => rfl
  | cons p rest ih =>
    by_cases h : p.1 = k <;>
      simp_all [dictErase, List.filter_cons]

/-- `_build_edge_cache` establishes the invariant whenever node ids are
unique and every transition endpoint is a known node id. -/
theorem build_edge_cache_inv (g : DayGraph)
    (h1 : (nodeKeys g).Nodup)
    (h4 : ∀ t ∈ g.transitions, t.from_node ∈ nodeKeys g ∧ t.to_node ∈ nodeKeys g) :
    GraphInv (g.build_edge_cache) := by
  have hkeys0 : (g.nodes.map (fun p => (p.1, ([] : List Transition)))).map
      (fun p => p.1) = nodeKeys g := by
    simp [nodeKeys, List.map_map]
  have hkf : ∀ (sel : Transition → String),
      ((g.transitions.foldl (fun a t => appendAt a (sel t) t)
        (g.nodes.map (fun p => (p.1, ([] : List Transition)))))).map (fun p => p.1) =
        nodeKeys g := by
    intro sel
    rw [← hkeys0]
    generalize (g.nodes.map (fun p => (p.1, ([] : List Transition)))) = acc
    induction g.transitions generalizing acc with
    | nil => rfl
    | cons t ts ih =>
      simp only [List.foldl_cons]
      rw [ih, keys_appendAt]
  have hfind : ∀ (sel : Transition → String) (n : String), n ∈ nodeKeys g →
      dictFind (g.transitions.foldl (fun a t => appendAt a (sel t) t)
        (g.nodes.map (fun p => (p.1, ([] : List Transition))))) n =
        some (g.transitions.filter (fun t => sel t == n)) := by
    intro sel n hn
    rw [dictFind_foldl_appendAt, dictFind_map_nil]
    rw [if_pos (show n ∈ List.map (fun p => p.1) g.nodes from hn)]
    simp
  refine ⟨h1, hkf _, hkf _, h4, ?_⟩
  intro n hn
  have hef : (g.build_edge_cache).edges_from =
      g.transitions.foldl (fun a t => appendAt a t.from_node t)
        (g.nodes.map (fun p => (p.1, ([] : List Transition)))) := rfl
  have het : (g.build_edge_cache).edges_to =
      g.transitions.foldl (fun a t => appendAt a t.to_node t)
        (g.nodes.map (fun p => (p.1, ([] : List Transition)))) := rfl
  constructor
  · show (dictFind (g.build_edge_cache).edges_from n).getD [] = _
    rw [hef, hfind (fun t => t.from_node) n hn]
    rfl
  · show (dictFind (g.build_edge_cache).edges_to n).getD [] = _
    rw [het, hfind (fun t => t.to_node) n hn]
    rfl

theorem add_node_inv (g : DayGraph) (node : EventNode) (hg : GraphInv g)
    (hfresh : node.id ∉ nodeKeys g) : GraphInv (g.add_node node) := by
  obtain ⟨h1, h2, h3, h4, h5⟩ := hg
  have hef : node.id ∉ g.edges_from.map (fun p => p.1) := by rw [h2]; exact hfresh
  have het : node.id ∉ g.edges_to.map (fun p => p.1) := by rw [h3]; exact hfresh
  have hn : (g.add_node node).nodes = g.nodes ++ [(node.id, node)] :=
    dictSet_fresh _ _ _ hfresh
  have hf : (g.add_node node).edges_from = g.edges_from ++ [(node.id, [])] :=
    dictSet_fresh _ _ _ hef
  have ht : (g.add_node node).edges_to = g.edges_to ++ [(node.id, [])] :=
    dictSet_fresh _ _ _ het
  have htrans : (g.add_node node).transitions = g.transitions := rfl
  have hkeys : nodeKeys (g.add_node node) = nodeKeys g ++ [node.id] := by
    simp [nodeKeys, hn]
  refine ⟨?_, ?_, ?_, ?_, ?_⟩
  · rw [hkeys]
    refine List.Nodup.append h1 (by simp) ?_
    intro a ha hb
    simp only [List.mem_singleton] at hb
    exact hfresh (hb ▸ ha)
  · rw [hf, hkeys]
    simp [h2]
  · rw [ht, hkeys]
    simp [h3]
  · intro t hti
    rw [htrans] at hti
    rw [hkeys]
    exact ⟨List.mem_append_left _ (h4 t hti).1, List.mem_append_left _ (h4 t hti).2⟩
  · intro n hn
    rw [hkeys] at hn
    rcases List.mem_append.mp hn with hn | hn
    · have hnf : n ∈ g.edges_from.map (fun p => p.1) := by rw [h2]; exact hn
      have hnt : n ∈ g.edges_to.map (fun p => p.1) := by rw [h3]; exact hn
      constructor
      · show (dictFind (g.add_node node).edges_from n).getD [] = _
        rw [hf, dictFind_append_left _ _ _ hnf, htrans]
        exact (h5 n hn).1
      · show (dictFind (g.add_node node).edges_to n).getD [] = _
        rw [ht, dictFind_append_left _ _ _ hnt, htrans]
        exact (h5 n hn).2
    · simp only [List.mem_singleton] at hn
      have hfresh2 : n ∉ nodeKeys g := by rw [hn]; exact hfresh
      have hef2 : n ∉ g.edges_from.map (fun p => p.1) := by rw [h2]; exact hfresh2
      have het2 : n ∉ g.edges_to.map (fun p => p.1) := by rw [h3]; exact hfresh2
      have hnone : ∀ t ∈ g.transitions, t.from_node ≠ n ∧ t.to_node ≠ n := by
        intro t hti
        constructor
        · intro hc; exact hfresh2 (hc ▸ (h4 t hti).1)
        · intro hc; exact hfresh2 (hc ▸ (h4 t hti).2)
      constructor
      · show (dictFind (g.add_node node).edges_from n).getD [] = _
        rw [hf, dictFind_append_right _ _ _ hef2, htrans]
        have hnil : g.transitions.filter (fun t => t.from_node == n) = [] := by
          rw [List.filter_eq_nil_iff]
          intro t hti
          simp only [beq_iff_eq]
          exact (hnone t hti).1
        rw [hnil, hn]
        simp [dictFind_cons]
      · show (dictFind (g.add_node node).edges_to n).getD [] = _
        rw [ht, dictFind_append_right _ _ _ het2, htrans]
        have hnil : g.transitions.filter (fun t => t.to_node == n) = [] := by
          rw [List.filter_eq_nil_iff]
          intro t hti
          simp only [beq_iff_eq]
          exact (hnone t hti).2
        rw [hnil, hn]
        simp [dictFind_cons]

theorem add_transition_inv (g : DayGraph) (t : Transition) (hg : GraphInv g) :
    GraphInv (g.add_transition t).1 := by
  obtain ⟨h1, h2, h3, h4, h5⟩ := hg
  unfold DayGraph.add_transition
  by_cases hfk : isKey g.nodes t.from_node
  · by_cases htk : isKey g.nodes t.to_node
    · simp only [hfk, htk, Bool.not_true, Bool.false_eq_true, if_false]
      have hfmem : t.from_node ∈ nodeKeys g := (isKey_iff _ _).mp hfk
      have htmem : t.to_node ∈ nodeKeys g := (isKey_iff _ _).mp htk
      refine ⟨h1, ?_, ?_, ?_, ?_⟩
      · show (appendAt g.edges_from t.from_node t).map (fun p => p.1) = _
        rw [keys_appendAt]
        exact h2
      · show (appendAt g.edges_to t.to_node t).map (fun p => p.1) = _
        rw [keys_appendAt]
        exact h3
      · intro u hu
        simp only [List.mem_append, List.mem_singleton] at hu
        rcases hu with hu | hu
        · exact h4 u hu
        · subst hu
          exact ⟨hfmem, htmem⟩
      · intro n hn
        have h5n := h5 n hn
        constructor
        · show (dictFind (appendAt g.edges_from t.from_node t) n).getD [] = _
          rw [dictFind_appendAt]
          by_cases hf : t.from_node = n
          · rw [if_pos hf]
            obtain ⟨v, hv⟩ := (dictFind_isSome_iff g.edges_from n).mpr
              (by rw [h2]; exact hn)
            rw [hv]
            have hvv : v = g.transitions.filter (fun u => u.from_node == n) := by
              have := h5n.1
              rw [show g.get_transitions_from n = (dictFind g.edges_from n).getD []
                from rfl, hv] at this
              exact this
            simp only [Option.map_some, Option.getD_some]
            rw [hvv, List.filter_append, List.filter_cons]
            simp [hf]
          · rw [if_neg hf]
            have := h5n.1
            rw [show g.get_transitions_from n = (dictFind g.edges_from n).getD []
              from rfl] at this
            rw [this, List.filter_append, List.filter_cons]
            simp [hf]
        · show (dictFind (appendAt g.edges_to t.to_node t) n).getD [] = _
          rw [dictFind_appendAt]
          by_cases hf : t.to_node = n
          · rw [if_pos hf]
            obtain ⟨v, hv⟩ := (dictFind_isSome_iff g.edges_to n).mpr
              (by rw [h3]; exact hn)
            rw [hv]
            have hvv : v = g.transitions.filter (fun u => u.to_node == n) := by
              have := h5n.2
              rw [show g.get_transitions_to n = (dictFind g.edges_to n).getD []
                from rfl, hv] at this
              exact this
            simp only [Option.map_some, Option.getD_some]
            rw [hvv, List.filter_append, List.filter_cons]
            simp [hf]
          · rw [if_neg hf]
            have := h5n.2
            rw [show g.get_transitions_to n = (dictFind g.edges_to n).getD []
              from rfl] at this
            rw [this, List.filter_append, List.filter_cons]
            simp [hf]
    · simp only [htk, Bool.not_false, if_true]
      split
      · exact ⟨h1, h2, h3, h4, h5⟩
      · exact ⟨h1, h2, h3, h4, h5⟩
  · simp only [hfk, Bool.not_false, if_true]
    exact ⟨h1, h2, h3, h4, h5⟩

theorem remove_node_inv (g : DayGraph) (node_id : String) (hg : GraphInv g) :
    GraphInv (g.remove_node node_id).1 := by
  obtain ⟨h1, h2, h3, h4, h5⟩ := hg
  unfold DayGraph.remove_node
  by_cases hk : isKey g.nodes node_id
  · simp only [hk, if_true]
    apply build_edge_cache_inv
    · show ((dictErase g.nodes node_id).map (fun p => p.1)).Nodup
      rw [keys_dictErase]
      exact h1.filter _
    · intro t ht
      simp only [List.mem_filter, Bool.and_eq_true, Bool.not_eq_eq_eq_not,
        Bool.not_true, beq_eq_false_iff_ne] at ht
      obtain ⟨hti, htf, htt⟩ := ht
      have h4t := h4 t hti
      show t.from_node ∈ (dictErase g.nodes node_id).map (fun p => p.1) ∧
        t.to_node ∈ (dictErase g.nodes node_id).map (fun p => p.1)
      rw [keys_dictErase]
      constructor
      · rw [List.mem_filter]
        exact ⟨h4t.1, by simpa using htf⟩
      · rw [List.mem_filter]
        exact ⟨h4t.2, by simpa using htt⟩
  · simp only [hk, if_false]
    exact ⟨h1, h2, h3, h4, h5⟩

theorem remove_transition_inv (g : DayGraph) (a b : String) (hg : GraphInv g) :
    GraphInv (g.remove_transition a b).1 := by
  obtain ⟨h1, h2, h3, h4, h5⟩ := hg
  unfold DayGraph.remove_transition
  by_cases hlen : (g.transitions.filter
      (fun t => !(t.from_node == a && t.to_node == b))).length < g.transitions.length
  · simp only [hlen, if_true]
    apply build_edge_cache_inv
    · exact h1
    · intro t ht
      exact h4 t (List.mem_of_mem_filter ht)
  · simp only [hlen, if_false]
    have hle : (g.transitions.filter
        (fun t => !(t.from_node == a && t.to_node == b))).length ≤
        g.transitions.length :=
      (List.filter_sublist _).length_le
    have heq : g.transitions.filter
        (fun t => !(t.from_node == a && t.to_node == b)) = g.transitions :=
      List.Sublist.eq_of_length (List.filter_sublist _) (by omega)
    rw [heq]
    exact ⟨h1, h2, h3, h4, h5⟩

theorem applyOp_inv (g : DayGraph) (op : GraphOp) (hg : GraphInv g)
    (hop : (match op with
            | GraphOp.addNode node => !(isKey g.nodes node.id)
            | _ => true) = true) :
    GraphInv (applyOp g op) := by
  cases op with
  | addNode node =>
    apply add_node_inv g node hg
    simp only [Bool.not_eq_true'] at hop
    intro hc
    have hc2 : isKey g.nodes node.id = true := (isKey_iff g.nodes node.id).mpr hc
    rw [hop] at hc2
    cases hc2
  | removeNode node_id => exact remove_node_inv g node_id hg
  | addTransition t => exact add_transition_inv g t hg
  | removeTransition a b => exact remove_transition_inv g a b hg

theorem applyOps_inv (ops : List GraphOp) :
    ∀ (g : DayGraph), GraphInv g → freshAdds g ops = true →
    GraphInv (applyOps g ops) := by
  induction ops with
  | nil => intro g hg _; exact hg
  | cons op rest ih =>
    intro g hg hops
    simp only [freshAdds, Bool.and_eq_true] at hops
    exact ih (applyOp g op) (applyOp_inv g op hg hops.1) hops.2

/-- C9 amended: starting from a freshly constructed graph whose node ids
are unique and whose initial transitions all have known endpoints, after
any sequence of topology mutations in which every `add_node` introduces a
new id, `get_transitions_from n` / `get_transitions_to n` agree with the
transitions list for every node id `n` of the graph. -/
theorem C9_cache_consistency (name description : String) (slots : Int)
    (nodes0 : List (String × EventNode)) (ts0 : List Transition)
    (ops : List GraphOp)
    (hnodup : (nodes0.map (fun p => p.1)).Nodup)
    (hclosed : ∀ t ∈ ts0, t.from_node ∈ nodes0.map (fun p => p.1) ∧
      t.to_node ∈ nodes0.map (fun p => p.1))
    (hops : freshAdds (DayGraph.fresh name description slots nodes0 ts0) ops = true) :
    ∀ n ∈ nodeKeys (applyOps (DayGraph.fresh name description slots nodes0 ts0) ops),
      (applyOps (DayGraph.fresh name description slots nodes0 ts0) ops).get_transitions_from n =
        (applyOps (DayGraph.fresh name description slots nodes0 ts0) ops).transitions.filter
          (fun t => t.from_node == n) ∧
      (applyOps (DayGraph.fresh name description slots nodes0 ts0) ops).get_transitions_to n =
        (applyOps (DayGraph.fresh name description slots nodes0 ts0) ops).transitions.filter
          (fun t => t.to_node == n) := by
  have hfresh0 : GraphInv (DayGraph.fresh name description slots nodes0 ts0) :=
    build_edge_cache_inv _ hnodup hclosed
  exact (applyOps_inv ops _ hfresh0 hops).2.2.2.2

def cxNodeA : EventNode := ⟨"a", "A", "", 0, NodeType.soft, "", [], []⟩

def cxNodeB : EventNode := ⟨"b", "B", "", 1, NodeType.soft, "", [], []⟩

def cxTransAB : Transition := ⟨"a", "b", 1, [], 1⟩

/-- Witness for C9: add two nodes and a transition (all fresh); the caches
agree with the transitions list on node `"a"`. -/
theorem C9_cache_consistency_witness :
    ((([(("a" : String), cxNodeA)]).map (fun p => p.1)).Nodup ∧
     freshAdds (DayGraph.fresh "g" "" 12 [("a", cxNodeA)] [])
       [GraphOp.addNode cxNodeB, GraphOp.addTransition cxTransAB] = true) ∧
    ((applyOps (DayGraph.fresh "g" "" 12 [("a", cxNodeA)] [])
        [GraphOp.addNode cxNodeB, GraphOp.addTransition cxTransAB]).get_transitions_from "a" =
      (applyOps (DayGraph.fresh "g" "" 12 [("a", cxNodeA)] [])
        [GraphOp.addNode cxNodeB, GraphOp.addTransition cxTransAB]).transitions.filter
          (fun t => t.from_node == "a") ∧
     (applyOps (DayGraph.fresh "g" "" 12 [("a", cxNodeA)] [])
        [GraphOp.addNode cxNodeB, GraphOp.addTransition cxTransAB]).get_transitions_to "a" =
      (applyOps (DayGraph.fresh "g" "" 12 [("a", cxNodeA)] [])
        [GraphOp.addNode cxNodeB, GraphOp.addTransition cxTransAB]).transitions.filter
          (fun t => t.to_node == "a")) :=
  ⟨⟨by decide, by decide⟩,
   C9_cache_consistency "g" "" 12 [("a", cxNodeA)] []
     [GraphOp.addNode cxNodeB, GraphOp.addTransition cxTransAB]
     (by decide) (by decide) (by decide) "a" (by decide)⟩

/-- C9 counterexample: the claim as stated fails for the legal mutation
sequence that re-adds an existing node id. `add_node` resets that id's
cache entries but leaves `transitions` untouched, so after
add a, add b, add a→b, add a (again), the cache answers `[]` for `"a"`
while the transitions list still holds the a→b edge. -/
theorem C9_counterexample :
    ("a" ∈ nodeKeys (applyOps (DayGraph.fresh "g" "" 12 [] [])
      [GraphOp.addNode cxNodeA, GraphOp.addNode cxNodeB,
       GraphOp.addTransition cxTransAB, GraphOp.addNode cxNodeA])) ∧
    (applyOps (DayGraph.fresh "g" "" 12 [] [])
      [GraphOp.addNode cxNodeA, GraphOp.addNode cxNodeB,
       GraphOp.addTransition cxTransAB, GraphOp.addNode cxNodeA]).get_transitions_from "a" = [] ∧
    (applyOps (DayGraph.fresh "g" "" 12 [] [])
      [GraphOp.addNode cxNodeA, GraphOp.addNode cxNodeB,
       GraphOp.addTransition cxTransAB, GraphOp.addNode cxNodeA]).transitions.filter
        (fun t => t.from_node == "a") = [cxTransAB] := by
  decide

-- === find_paths: BFS with per-entry (path, knowledge, world) state ===

/-- One frontier entry of the BFS queue: `(current, path, knowledge, world)`. -/
structure BfsEntry where
  node : String
  path : List String
  knowledge : List String
  world : List String
deriving DecidableEq, Repr

/-- One candidate successor of a frontier entry along one transition:
skipped when the target is already on this path (cycle avoidance), when the
edge conditions fail, when the target node is unknown, or when the target's
preconditions fail. `k`/`w` are the entry's state after applying the
current node's effects. -/
def bfsChild (g : DayGraph) (e : BfsEntry) (k w : List String)
    (trans : Transition) : Option BfsEntry :=
  if decide (trans.to_node ∈ e.path) then none
  else if !(trans.can_traverse k w) then none
  else
    match g.get_node trans.to_node with
    | some target =>
      if target.can_enter k w then
        some ⟨trans.to_node, e.path ++ [trans.to_node], k, w⟩
      else none
    | none => none

/-- The successor entries enqueued when an entry is expanded. -/
def DayGraph.bfsChildren (g : DayGraph) (e : BfsEntry) : List BfsEntry :=
  let kw :=
    match g.get_node e.node with
    | some node => node.apply_effects e.knowledge e.world
    | none => (e.knowledge, e.world)
  (g.get_transitions_from e.node).filterMap (bfsChild g e kw.1 kw.2)

/-- The `while queue and len(paths) < max_paths` loop of `find_paths`.
`fuel` counts loop iterations; the Python loop always terminates (paths
grow strictly along a finite graph) and the verified properties hold for
every fuel value, hence for the actual iteration count. -/
def DayGraph.findPathsGo (g : DayGraph) (goal : String) (max_paths max_depth : Nat) :
    Nat → List BfsEntry → List (List String) → List (List String)
  | 0, _, paths => paths
  | _ + 1, [], paths => paths
  | fuel + 1, e :: queue, paths =>
    if max_paths ≤ paths.length then paths
    else if max_depth < e.path.length then
      g.findPathsGo goal max_paths max_depth fuel queue paths
    else if e.node == goal then
      g.findPathsGo goal max_paths max_depth fuel queue (paths ++ [e.path])
    else
      g.findPathsGo goal max_paths max_depth fuel (queue ++ g.bfsChildren e) paths

/-- `DayGraph.find_paths(start, goal, knowledge, world_state, max_paths,
max_depth)` (`fuel` as above). -/
def DayGraph.find_paths (g : DayGraph) (start goal : String)
    (knowledge world_state : List String) (max_paths max_depth fuel : Nat) :
    List (List String) :=
  if !(isKey g.nodes start) then []
  else if !(isKey g.nodes goal) then []
  else g.findPathsGo goal max_paths max_depth fuel
    [⟨start, [start], knowledge, world_state⟩] []

theorem bfsChild_path (g : DayGraph) (e : BfsEntry) (k w : List String)
    (trans : Transition) (c : BfsEntry) (h : bfsChild g e k w trans = some c) :
    c.path = e.path ++ [trans.to_node] ∧ trans.to_node ∉ e.path := by
  unfold bfsChild at h
  by_cases hmem : trans.to_node ∈ e.path
  · rw [if_pos (by simpa using hmem)] at h
    cases h
  · rw [if_neg (by simpa using hmem)] at h
    by_cases hcan : trans.can_traverse k w
    · rw [if_neg (by simp [hcan])] at h
      cases htarget : g.get_node trans.to_node with
      | none => rw [htarget] at h; cases h
      | some target =>
        rw [htarget] at h
        by_cases hent : target.can_enter k w
        · simp only [hent, if_true] at h
          obtain rfl := Option.some_inj.mp h
          exact ⟨rfl, hmem⟩
        · simp [hent] at h
    · rw [if_pos (by simp [Bool.not_eq_true] at hcan; simp [hcan])] at h
      cases h

theorem bfsChildren_nodup (g : DayGraph) (e : BfsEntry) (he : e.path.Nodup) :
    ∀ c ∈ g.bfsChildren e, c.path.Nodup := by
  intro c hc
  unfold DayGraph.bfsChildren at hc
  simp only [List.mem_filterMap] at hc
  obtain ⟨trans, _, htr⟩ := hc
  obtain ⟨hcp, hmem⟩ := bfsChild_path g e _ _ trans c htr
  rw [hcp, List.nodup_append]
  exact ⟨he, List.nodup_singleton _, by simpa using hmem⟩

theorem findPathsGo_nodup (g : DayGraph) (goal : String)
    (max_paths max_depth : Nat) :
    ∀ (fuel : Nat) (queue : List BfsEntry) (paths : List (List String)),
    (∀ e ∈ queue, e.path.Nodup) → (∀ p ∈ paths, p.Nodup) →
    ∀ p ∈ g.findPathsGo goal max_paths max_depth fuel queue paths, p.Nodup := by
  intro fuel
  induction fuel with
  | zero => intro queue paths _ hp; exact hp
  | succ fuel ih =>
    intro queue paths hq hp
    cases queue with
    | nil => exact hp
    | cons e rest =>
      unfold DayGraph.findPathsGo
      by_cases h1 : max_paths ≤ paths.length
      · simp only [h1, if_true]
        exact hp
      · simp only [h1, if_false]
        by_cases h2 : max_depth < e.path.length
        · simp only [h2, if_true]
          exact ih rest paths (fun x hx => hq x (List.mem_cons_of_mem _ hx)) hp
        · simp only [h2, if_false]
          by_cases h3 : e.node == goal
          · simp only [h3, if_true]
            apply ih rest (paths ++ [e.path])
              (fun x hx => hq x (List.mem_cons_of_mem _ hx))
            intro p hpm
            rcases List.mem_append.mp hpm with hpm | hpm
            · exact hp p hpm
            · simp only [List.mem_singleton] at hpm
              subst hpm
              exact hq e (List.mem_cons_self _ _)
          · simp only [h3, if_false]
            apply ih (rest ++ g.bfsChildren e) paths ?_ hp
            intro x hx
            rcases List.mem_append.mp hx with hx | hx
            · exact hq x (List.mem_cons_of_mem _ hx)
            · exact bfsChildren_nodup g e (hq e (List.mem_cons_self _ _)) x hx

/-- C3: every path returned by `find_paths` contains no duplicate node —
the per-path cycle avoidance (`trans.to_node in path → skip`) keeps every
frontier path duplicate-free, and returned paths are frontier paths. This
holds for every graph, state, bound and iteration budget. -/
theorem C3_find_paths_nodup (g : DayGraph) (start goal : String)
    (knowledge world_state : List String) (max_paths max_depth fuel : Nat) :
    ∀ p ∈ g.find_paths start goal knowledge world_state max_paths max_depth fuel,
      p.Nodup := by
  intro p hp
  unfold DayGraph.find_paths at hp
  by_cases h1 : isKey g.nodes start
  · by_cases h2 : isKey g.nodes goal
    · simp only [h1, h2, Bool.not_true, Bool.false_eq_true, if_false] at hp
      refine findPathsGo_nodup g goal max_paths max_depth fuel _ _ ?_ ?_ p hp
      · intro e he
        simp only [List.mem_singleton] at he
        subst he
        exact List.nodup_singleton _
      · intro q hq
        simp at hq
    · simp [h1, h2] at hp
  · simp [h1] at hp

/-- Witness for C3 at a concrete graph: the two-node graph `a → b` with the
path `["a", "b"]` returned by `find_paths`. -/
theorem C3_find_paths_nodup_witness :
    (["a", "b"] ∈ (applyOps (DayGraph.fresh "g" "" 12 [] [])
        [GraphOp.addNode cxNodeA, GraphOp.addNode cxNodeB,
         GraphOp.addTransition cxTransAB]).find_paths "a" "b" [] [] 10 20 10) ∧
    (["a", "b"] : List String).Nodup :=
  ⟨by decide,
   C3_find_paths_nodup (applyOps (DayGraph.fresh "g" "" 12 [] [])
       [GraphOp.addNode cxNodeA, GraphOp.addNode cxNodeB,
        GraphOp.addTransition cxTransAB]) "a" "b" [] [] 10 20 10
     ["a", "b"] (by decide)⟩

-- === Operators (engine/operators.py) ===

inductive EpochType where
  | naive
  | mapping
  | obsession
  | ruthless
  | synthesis
deriving DecidableEq, Repr

/-- The `Loop` record as operators build it. The random `id` and the
`created_at` timestamp are not modelled (no verified operation reads them);
`key_choices`, `mood_id`, `notes`, `class_id` keep their defaults. -/
structure Loop where
  parent_id : Option String
  epoch : EpochType
  key_choices : Nat
  outcome_hash : String
  knowledge_id : String
  tags : List String
  decision_trace : List String
deriving DecidableEq, Repr

/-- `Loop.add_tag`: append the tag if not already present. -/
def Loop.add_tag (l : Loop) (tag : String) : Loop :=
  if decide (tag ∈ l.tags) then l else { l with tags := l.tags ++ [tag] }

structure OperatorResult where
  success : Bool
  loop : Option Loop
  simulation : Option SimulationResult
  attempts : Nat
  partial_success : Bool
  message : String
  decisions : List String
deriving DecidableEq, Repr

/-- `Operator._simulate_and_create_loop`: simulate deterministically; on
failure return no loop; on success build the `Loop` and auto-tag it.
Persistence through the optional storage collaborator has no effect on the
returned value and is not modelled. -/
def simulate_and_create_loop (g : DayGraph) (decisions : List String)
    (epoch : EpochType) (initial_knowledge : List String)
    (parent_id : Option String) : Option Loop × SimulationResult :=
  let result := g.simulate_loop decisions initial_knowledge []
  if !result.success then (none, result)
  else
    let loop0 : Loop :=
      ⟨parent_id, epoch, 0, result.outcome_hash, result.knowledge_id, [],
       result.decision_trace⟩
    let loop1 := if result.death_node.isSome then loop0.add_tag "death" else loop0
    let loop2 := if result.terminated_early then loop1.add_tag "terminated_early" else loop1
    let loop3 :=
      if decide (result.decision_trace.length < 4) then loop2.add_tag "short_loop" else loop2
    (some loop3, result)

/-- Python `min(paths, key=len)`: the first path of minimal length. -/
def minByLen (first : List String) (rest : List (List String)) : List String :=
  rest.foldl (fun best p => if p.length < best.length then p else best) first

/-- Python `max(paths, key=len)`: the first path of maximal length. -/
def maxByLen (first : List String) (rest : List (List String)) : List String :=
  rest.foldl (fun best p => if best.length < p.length then p else best) first

/-- The knowledge-bootstrap retry of `CauseOperator.execute`: walk the
revelation nodes in order, reach one, simulate to collect its knowledge
(keeping it for later iterations even on failure to then reach the target),
and retry the target with the richer knowledge. -/
def causeBootstrap (g : DayGraph) (fuel : Nat) (startId target : String) :
    List EventNode → List String → List (List String)
  | [], _ => []
  | rev :: rest, knowledge =>
    match g.find_paths startId rev.id knowledge [] 1 20 fuel with
    | [] => causeBootstrap g fuel startId target rest knowledge
    | tp :: _ =>
      let sim := g.simulate_loop tp knowledge []
      if sim.success then
        let knowledge2 :=
          match sim.final_state with
          | some st => st.knowledge
          | none => knowledge
        match g.find_paths startId target knowledge2 [] 1 20 fuel with
        | [] => causeBootstrap g fuel startId target rest knowledge2
        | q :: qs => q :: qs
      else causeBootstrap g fuel startId target rest knowledge

/-- `CauseOperator.execute(target_event, ...)`. `fuel` is the iteration
budget of each inner `find_paths` BFS (see `findPathsGo`). -/
def CauseOperator.execute (g : DayGraph) (fuel : Nat) (target_event : String)
    (epoch : EpochType) (initial_knowledge : Option (List String))
    (parent_id : Option String) (max_attempts : Nat) : OperatorResult :=
  match g.get_start_node with
  | none => ⟨false, none, none, 1, false, "Graph has no start node", []⟩
  | some start =>
    if !(isKey g.nodes target_event) then
      ⟨false, none, none, 1, false, "Target event not found in graph", []⟩
    else
      let knowledge := initial_knowledge.getD []
      match
        (fun paths0 =>
          if paths0.isEmpty then
            causeBootstrap g fuel start.id target_event
              g.get_revelation_nodes knowledge
          else paths0)
        (g.find_paths start.id target_event knowledge [] max_attempts 20 fuel)
      with
      | [] => ⟨false, none, none, 1, false, "No path found to target", []⟩
      | p :: rest =>
        let best_path := minByLen p rest
        let ls := simulate_and_create_loop g best_path epoch knowledge parent_id
        ⟨ls.1.isSome && decide (target_event ∈ best_path), ls.1, some ls.2, 1,
         false,
         (if ls.1.isSome then "Target event reached" else "Simulation failed"),
         best_path⟩

/-- The `_random_walk_avoiding` step loop. `rng` gives, per step, the index
the Python `random.choice` draw would pick (reduced mod the candidate
count), so the theorems range over every possible random outcome. -/
def randomWalkLoop (g : DayGraph) (rng : Nat → Nat) (avoid : String) :
    Nat → Nat → WorldState → List String → List String
  | 0, _, _, decisions => decisions
  | steps + 1, i, state, decisions =>
    if state.is_dead then decisions
    else
      let valid :=
        match state.current_node with
        | some c => g.get_valid_choices c state.knowledge state.world_facts
        | none => []
      let safe0 := valid.filter (fun t => !(t.to_node == avoid))
      let safe := if safe0.isEmpty then valid else safe0
      if safe.isEmpty then decisions
      else
        match safe[rng i % safe.length]? with
        | none => decisions
        | some tr =>
          match g.get_node tr.to_node with
          | some next_node =>
            randomWalkLoop g rng avoid steps (i + 1) (state.visit_node next_node)
              (decisions ++ [next_node.id])
          | none => randomWalkLoop g rng avoid steps (i + 1) state decisions

/-- `AvoidOperator._random_walk_avoiding(start, avoid, knowledge)`. -/
def random_walk_avoiding (g : DayGraph) (rng : Nat → Nat) (start avoid : String)
    (knowledge : List String) (max_steps : Nat) : List String × Bool :=
  let state0 := freshWorldState knowledge []
  let state1 :=
    match g.get_node start with
    | some n => state0.visit_node n
    | none => state0
  let decisions := randomWalkLoop g rng avoid max_steps 0 state1 [start]
  (decisions, decide (avoid ∉ decisions))

/-- `AvoidOperator.execute(target_event, ...)`. The Python terminal-node
set is iterated here in node-insertion order (CPython set order is
unspecified; the verified property is order-independent). `rng` indexes the
random draws of each fallback walk attempt. -/
def AvoidOperator.execute (g : DayGraph) (fuel : Nat) (rng : Nat → Nat → Nat)
    (target_event : String) (epoch : EpochType)
    (initial_knowledge : Option (List String)) (parent_id : Option String)
    (max_attempts : Nat) : OperatorResult :=
  match g.get_start_node with
  | none => ⟨false, none, none, 1, false, "Graph has no start node", []⟩
  | some start =>
    let knowledge := initial_knowledge.getD []
    let terminal_nodes := g.nodes.filterMap (fun p =>
      if p.2.is_death then some p.1
      else if (g.get_transitions_from p.1).isEmpty then some p.1
      else none)
    let mp0 := max_attempts / 2
    let mp := if mp0 == 0 then 1 else mp0
    match
      (fun safe_paths =>
        if safe_paths.isEmpty then
          (List.range max_attempts).foldl (fun acc attempt =>
            let dw := random_walk_avoiding g (rng attempt) start.id target_event
              knowledge 20
            if dw.2 then acc ++ [dw.1] else acc) []
        else safe_paths)
      (terminal_nodes.foldl (fun acc terminal =>
        if terminal == target_event then acc
        else acc ++ (g.find_paths start.id terminal knowledge [] mp 20 fuel).filter
          (fun path => decide (target_event ∉ path))) [])
    with
    | [] => ⟨false, none, none, 1, false,
        "Cannot avoid target - it may be unavoidable", []⟩
    | p :: rest =>
      let best_path := maxByLen p rest
      let ls := simulate_and_create_loop g best_path epoch knowledge parent_id
      ⟨ls.1.isSome && decide (target_event ∉ best_path), ls.1, some ls.2,
       (p :: rest).length, false,
       (if decide (target_event ∉ best_path) then "Target avoided"
        else "Could not avoid target"),
       best_path⟩

/-- Python `knowledge.update(k)`. -/
def unionInto (base extra : List String) : List String :=
  extra.foldl (fun acc x => acc.insert x) base

/-- The per-segment body of `TriggerOperator.execute`: append every node of
the found segment after its first, updating knowledge with each node's
`apply_effects` against an empty world state. -/
def triggerSegment (g : DayGraph) (p : List String)
    (knowledge full_path : List String) : List String × List String :=
  (p.drop 1).foldl (fun (acc : List String × List String) node_id =>
    match g.get_node node_id with
    | some node =>
      (acc.1 ++ [node_id], unionInto acc.2 (node.apply_effects acc.2 []).1)
    | none => (acc.1 ++ [node_id], acc.2))
    (full_path, knowledge)

/-- The checkpoint loop of `TriggerOperator.execute`: stitch `find_paths`
segments between consecutive checkpoints; on an unreachable checkpoint
report `(checkpoint, current, path built so far)`. -/
def triggerLoop (g : DayGraph) (fuel : Nat) :
    List String → String → List String → List String →
      Except (String × String × List String) (List String)
  | [], _, _, full_path => Except.ok full_path
  | checkpoint :: rest, current, knowledge, full_path =>
    if checkpoint == current then
      triggerLoop g fuel rest current knowledge
        (if decide (checkpoint ∈ full_path) then full_path
         else full_path ++ [checkpoint])
    else
      match g.find_paths current checkpoint knowledge [] 1 20 fuel with
      | [] => Except.error (checkpoint, current, full_path)
      | p :: _ =>
        triggerLoop g fuel rest checkpoint
          (triggerSegment g p knowledge full_path).2
          (triggerSegment g p knowledge full_path).1

/-- `TriggerOperator.execute(sequence, ...)`. -/
def TriggerOperator.execute (g : DayGraph) (fuel : Nat) (sequence : List String)
    (epoch : EpochType) (initial_knowledge : Option (List String))
    (parent_id : Option String) : OperatorResult :=
  if sequence.isEmpty then
    ⟨false, none, none, 1, false, "Empty sequence provided", []⟩
  else
    match g.get_start_node with
    | none => ⟨false, none, none, 1, false, "Graph has no start node", []⟩
    | some start =>
      match sequence.find? (fun node_id => !(isKey g.nodes node_id)) with
      | some bad =>
        ⟨false, none, none, 1, false, "Sequence node not found: " ++ bad, []⟩
      | none =>
        match triggerLoop g fuel sequence start.id (initial_knowledge.getD [])
          (if sequence.head? == some start.id then [] else [start.id])
        with
        | Except.error ecf =>
          ⟨false, none, none, 1, decide (1 < ecf.2.2.length),
           "Cannot reach checkpoint " ++ ecf.1 ++ " from " ++ ecf.2.1, ecf.2.2⟩
        | Except.ok fp =>
          let ls := simulate_and_create_loop g fp epoch
            (initial_knowledge.getD []) parent_id
          ⟨ls.1.isSome && sequence.all (fun cp => decide (cp ∈ fp)), ls.1,
           some ls.2, 1, false,
           (if sequence.all (fun cp => decide (cp ∈ fp)) then "Sequence triggered"
            else "Partial sequence"),
           fp⟩

/-- C4: whenever `CauseOperator.execute(target_event, ...)` returns a
result with `success=true`, the target event is on the returned decisions
list — in every branch the success flag is conjoined with membership of the
target in the chosen path, which is the decisions list. Holds for every
graph, knowledge, bound and BFS iteration budget. -/
theorem C4_cause_success_mem (g : DayGraph) (fuel : Nat) (target_event : String)
    (epoch : EpochType) (ik : Option (List String)) (pid : Option String)
    (max_attempts : Nat) (r : OperatorResult)
    (hr : CauseOperator.execute g fuel target_event epoch ik pid max_attempts = r)
    (h : r.success = true) :
    target_event ∈ r.decisions := by
  simp only [CauseOperator.execute] at hr
  split at hr
  · subst hr; simp at h
  · split at hr
    · subst hr; simp at h
    · split at hr
      · subst hr; simp at h
      · subst hr
        simp only [Bool.and_eq_true, decide_eq_true_eq] at h
        exact h.2

def exG : DayGraph :=
  applyOps (DayGraph.fresh "g" "" 12 [] [])
    [GraphOp.addNode cxNodeA, GraphOp.addNode cxNodeB,
     GraphOp.addTransition cxTransAB]

/-- Witness for C4 at the two-node graph `a → b`: causing `"b"` succeeds
and `"b"` is on the decision list. -/
theorem C4_cause_success_mem_witness :
    ((CauseOperator.execute exG 10 "b" EpochType.naive none none 10).success = true) ∧
    "b" ∈ (CauseOperator.execute exG 10 "b" EpochType.naive none none 10).decisions :=
  ⟨by decide,
   C4_cause_success_mem exG 10 "b" EpochType.naive none none 10 _ rfl (by decide)⟩

/-- C5: whenever `AvoidOperator.execute(target_event, ...)` returns a
result with `success=true`, the target event is not on the returned
decisions list. The success flag is conjoined with the recomputed absence
of the target from the chosen path, so this covers both the
`find_paths`-based branch and the random-walk fallback branch (the theorem
quantifies over every random-draw oracle `rng`). -/
theorem C5_avoid_success_not_mem (g : DayGraph) (fuel : Nat)
    (rng : Nat → Nat → Nat) (target_event : String) (epoch : EpochType)
    (ik : Option (List String)) (pid : Option String) (max_attempts : Nat)
    (r : OperatorResult)
    (hr : AvoidOperator.execute g fuel rng target_event epoch ik pid
      max_attempts = r)
    (h : r.success = true) :
    target_event ∉ r.decisions := by
  simp only [AvoidOperator.execute] at hr
  split at hr
  · subst hr; simp at h
  · split at hr
    · subst hr; simp at h
    · subst hr
      simp only [Bool.and_eq_true, decide_eq_true_eq] at h
      exact h.2

/-- Witness for C5 at the two-node graph `a → b`: avoiding the (absent)
event `"zz"` succeeds via the path to the dead-end `b`, which omits it. -/
theorem C5_avoid_success_not_mem_witness :
    ((AvoidOperator.execute exG 10 (fun _ _ => 0) "zz" EpochType.naive none
        none 10).success = true) ∧
    "zz" ∉ (AvoidOperator.execute exG 10 (fun _ _ => 0) "zz" EpochType.naive
        none none 10).decisions :=
  ⟨by decide,
   C5_avoid_success_not_mem exG 10 (fun _ _ => 0) "zz" EpochType.naive none
     none 10 _ rfl (by decide)⟩

def cxNodeZ : EventNode := ⟨"z", "Z", "", 1, NodeType.soft, "", [], []⟩

def exGZ : DayGraph :=
  applyOps (DayGraph.fresh "g" "" 12 [] [])
    [GraphOp.addNode cxNodeA, GraphOp.addNode cxNodeB, GraphOp.addNode cxNodeZ,
     GraphOp.addTransition cxTransAB]

/-- C6 amended: when `TriggerOperator.execute` finds a checkpoint
unreachable from the previous position (the stitching loop reports
`(checkpoint, current, full_path)`), it stops and returns `success=false`
with `decisions` equal to the path built so far, and
`partial_success = (len(full_path) > 1)` — true exactly when the path
built so far extends past the start node, false otherwise (in particular
false when the first checkpoint is unreachable). -/
theorem C6_trigger_unreachable_checkpoint (g : DayGraph) (fuel : Nat)
    (sequence : List String) (epoch : EpochType) (ik : Option (List String))
    (pid : Option String) (start : EventNode) (cp cur : String)
    (fp : List String)
    (hseq : sequence.isEmpty = false)
    (hstart : g.get_start_node = some start)
    (hfound : sequence.find? (fun node_id => !(isKey g.nodes node_id)) = none)
    (herr : triggerLoop g fuel sequence start.id (ik.getD [])
      (if sequence.head? == some start.id then [] else [start.id]) =
        Except.error (cp, cur, fp)) :
    (TriggerOperator.execute g fuel sequence epoch ik pid).success = false ∧
    (TriggerOperator.execute g fuel sequence epoch ik pid).decisions = fp ∧
    ((TriggerOperator.execute g fuel sequence epoch ik pid).partial_success = true ↔
      1 < fp.length) := by
  unfold TriggerOperator.execute
  simp only [hseq, Bool.false_eq_true, if_false, hstart, hfound, herr]
  simp

/-- Witness for C6 at the graph `a → b` with an isolated node `z`:
triggering `["b", "z"]` stitches `a → b`, then finds `z` unreachable and
returns the two-node path with `partial_success = true`. -/
theorem C6_trigger_unreachable_checkpoint_witness :
    ((["b", "z"] : List String).isEmpty = false ∧
     exGZ.get_start_node = some cxNodeA ∧
     (["b", "z"] : List String).find?
       (fun node_id => !(isKey exGZ.nodes node_id)) = none ∧
     triggerLoop exGZ 10 ["b", "z"] cxNodeA.id ((none : Option (List String)).getD [])
       (if (["b", "z"] : List String).head? == some cxNodeA.id then []
        else [cxNodeA.id]) = Except.error ("z", "b", ["a", "b"])) ∧
    ((TriggerOperator.execute exGZ 10 ["b", "z"] EpochType.naive none none).success = false ∧
     (TriggerOperator.execute exGZ 10 ["b", "z"] EpochType.naive none none).decisions =
       ["a", "b"] ∧
     ((TriggerOperator.execute exGZ 10 ["b", "z"] EpochType.naive none
         none).partial_success = true ↔ 1 < (["a", "b"] : List String).length)) :=
  ⟨⟨by decide, by decide, by decide, by rfl⟩,
   C6_trigger_unreachable_checkpoint exGZ 10 ["b", "z"] EpochType.naive none
     none cxNodeA "z" "b" ["a", "b"] (by decide) (by decide) (by decide)
     (by rfl)⟩

/-- C6 counterexample: the claim as stated requires `partial_success=true`
for every unreachable checkpoint "including the first one in the
sequence", but when the very first checkpoint (`"z"`, unreachable from the
start `"a"`) fails, the path built so far is just `["a"]` and the code
sets `partial_success = (len(full_path) > 1) = False`. -/
theorem C6_counterexample :
    (TriggerOperator.execute exGZ 10 ["z"] EpochType.naive none none).success = false ∧
    (TriggerOperator.execute exGZ 10 ["z"] EpochType.naive none none).partial_success = false ∧
    (TriggerOperator.execute exGZ 10 ["z"] EpochType.naive none none).decisions = ["a"] := by
  decide

-- === Decision-vector utilities (models/loop.py) ===

/-- `bin(n).count('1')` with a structural fuel (`fuel ≥ n` suffices), so
that the kernel can evaluate it. -/
def popCountGo : Nat → Nat → Nat
  | 0, _ => 0
  | fuel + 1, n => if n = 0 then 0 else n % 2 + popCountGo fuel (n / 2)

/-- Population count: `bin(n).count('1')`. -/
def popCount (n : Nat) : Nat := popCountGo n n

/-- `hamming_distance(vec1, vec2)`: population count of the XOR. -/
def hamming_distance (vec1 vec2 : Nat) : Nat := popCount (vec1 ^^^ vec2)

/-- `mutate_vector(vec, n_flips, max_bits)` with the positions drawn by
`random.sample(range(max_bits), min(n_flips, max_bits))` made explicit:
the function XORs `1 << bit` for each sampled bit. -/
def mutate_vector (vec : Nat) (bits_to_flip : List Nat) : Nat :=
  bits_to_flip.foldl (fun result bit => result ^^^ (1 <<< bit)) vec

/-- What `random.sample(range(max_bits), min(n_flips, max_bits))`
guarantees about the drawn positions: distinct, below `max_bits`, and
exactly `min n_flips max_bits` of them. -/
def validSample (positions : List Nat) (n_flips max_bits : Nat) : Prop :=
  positions.Nodup ∧ (∀ p ∈ positions, p < max_bits) ∧
    positions.length = min n_flips max_bits

instance (positions : List Nat) (n m : Nat) :
    Decidable (validSample positions n m) := by
  unfold validSample
  infer_instance

theorem popCountGo_zero (fuel : Nat) : popCountGo fuel 0 = 0 := by
  cases fuel <;> simp [popCountGo]

theorem popCountGo_congr :
    ∀ (f1 f2 n : Nat), n ≤ f1 → n ≤ f2 → popCountGo f1 n = popCountGo f2 n := by
  intro f1
  induction f1 with
  | zero =>
    intro f2 n h1 _
    have : n = 0 := by omega
    subst this
    rw [popCountGo_zero, popCountGo_zero]
  | succ f1 ih =>
    intro f2 n h1 h2
    cases f2 with
    | zero =>
      have : n = 0 := by omega
      subst this
      rw [popCountGo_zero, popCountGo_zero]
    | succ f2 =>
      by_cases h0 : n = 0
      · subst h0
        rw [popCountGo_zero, popCountGo_zero]
      · have hdiv : n / 2 < n := Nat.div_lt_self (Nat.pos_of_ne_zero h0) one_lt_two
        simp only [popCountGo, h0, if_false]
        rw [ih f2 (n / 2) (by omega) (by omega)]

theorem popCount_rec (n : Nat) (h : n ≠ 0) :
    popCount n = n % 2 + popCount (n / 2) := by
  have hdiv : n / 2 < n := Nat.div_lt_self (Nat.pos_of_ne_zero h) one_lt_two
  unfold popCount
  cases hn : n with
  | zero => exact absurd hn h
  | succ m =>
    simp only [popCountGo, hn ▸ h, if_false]
    rw [popCountGo_congr m ((m + 1) / 2) ((m + 1) / 2) (by omega) le_rfl]

theorem popCount_eq_sum (B : Nat) :
    ∀ n, n < 2 ^ B → popCount n = ∑ i ∈ Finset.range B, (n.testBit i).toNat := by
  induction B with
  | zero =>
    intro n hn
    have : n = 0 := by simpa using hn
    subst this
    simp [popCount, popCountGo_zero]
  | succ B ih =>
    intro n hn
    by_cases h0 : n = 0
    · subst h0
      simp [popCount, popCountGo_zero, Nat.zero_testBit]
    · rw [popCount_rec n h0, Finset.sum_range_succ']
      have hlt : n / 2 < 2 ^ B := by
        rw [Nat.div_lt_iff_lt_mul (by norm_num)]
        rw [pow_succ] at hn
        exact hn
      rw [ih (n / 2) hlt]
      have ht0 : (n.testBit 0).toNat = n % 2 := by
        rw [Nat.testBit_zero]
        rcases Nat.mod_two_eq_zero_or_one n with h | h <;> simp [h]
      have hts : ∀ i ∈ Finset.range B,
          ((n / 2).testBit i).toNat = (n.testBit (i + 1)).toNat := by
        intro i _
        rw [Nat.testBit_succ]
      rw [Finset.sum_congr rfl hts, ht0]
      omega

theorem testBit_one_shift (p b : Nat) :
    (1 <<< p).testBit b = decide (p = b) := by
  rw [Nat.shiftLeft_eq, one_mul, Nat.testBit_two_pow]

theorem testBit_mutate (vec : Nat) (ps : List Nat) (hnd : ps.Nodup) (i : Nat) :
    (mutate_vector vec ps).testBit i = ((vec.testBit i).xor (decide (i ∈ ps))) := by
  induction ps generalizing vec with
  | nil => simp [mutate_vector]
  | cons p ps ih =>
    obtain ⟨hp, hnd2⟩ := List.nodup_cons.mp hnd
    show (mutate_vector (vec ^^^ (1 <<< p)) ps).testBit i = _
    rw [ih (vec ^^^ (1 <<< p)) hnd2]
    rw [Nat.testBit_xor, testBit_one_shift]
    by_cases hip : p = i
    · subst hip
      have : (decide (p ∈ ps)) = false := by simpa using hp
      simp [this]
    · have hip2 : ¬(i = p) := fun hc => hip hc.symm
      simp [hip, hip2, List.mem_cons]

theorem lt_two_pow_of_high_bits (n b : Nat)
    (h : ∀ i, b ≤ i → n.testBit i = false) : n < 2 ^ b := by
  refine Nat.lt_of_testBit b (h b le_rfl) (by simp [Nat.testBit_two_pow]) ?_
  intro j hj
  rw [h j (le_of_lt hj), Nat.testBit_two_pow]
  simp [Nat.ne_of_lt hj]

/-- C8 amended: for every vector, every requested flip count `n_flips ≤
max_bits`, and every possible draw of `random.sample`, `mutate_vector`
returns a vector differing from the input in exactly `n_flips` distinct
bit positions — precisely the sampled ones, all within `[0, max_bits)` —
so its Hamming distance to the input is `n_flips`. (For `n_flips >
max_bits` the code clamps the sample to `max_bits` positions, see the
counterexample.) -/
theorem C8_mutate_vector_distance (vec n_flips max_bits : Nat)
    (positions : List Nat) (hvalid : validSample positions n_flips max_bits)
    (hle : n_flips ≤ max_bits) :
    hamming_distance (mutate_vector vec positions) vec = n_flips ∧
    (∀ i, (mutate_vector vec positions).testBit i ≠ vec.testBit i ↔
      i ∈ positions) ∧
    (∀ i, (mutate_vector vec positions).testBit i ≠ vec.testBit i →
      i < max_bits) := by
  obtain ⟨hnd, hbound, hlen⟩ := hvalid
  have hdiff : ∀ i, ((mutate_vector vec positions) ^^^ vec).testBit i =
      decide (i ∈ positions) := by
    intro i
    rw [Nat.testBit_xor, testBit_mutate vec positions hnd i]
    cases h : vec.testBit i <;> cases hm : decide (i ∈ positions) <;>
      simp [h, hm]
  have hiff : ∀ i, ((mutate_vector vec positions).testBit i ≠ vec.testBit i ↔
      i ∈ positions) := by
    intro i
    rw [← decide_eq_true_iff (p := i ∈ positions), ← hdiff i, Nat.testBit_xor]
    cases h1 : (mutate_vector vec positions).testBit i <;>
      cases h2 : vec.testBit i <;> simp
  refine ⟨?_, hiff, ?_⟩
  · have hlt : (mutate_vector vec positions) ^^^ vec < 2 ^ max_bits := by
      refine lt_two_pow_of_high_bits _ _ ?_
      intro i hi
      rw [hdiff i]
      simp only [decide_eq_false_iff_not]
      intro hmem
      exact absurd (hbound i hmem) (by omega)
    show popCount _ = n_flips
    rw [popCount_eq_sum max_bits _ hlt]
    have hsum : ∀ i ∈ Finset.range max_bits,
        (((mutate_vector vec positions) ^^^ vec).testBit i).toNat =
          if i ∈ positions then 1 else 0 := by
      intro i _
      rw [hdiff i]
      by_cases h : i ∈ positions <;> simp [h]
    rw [Finset.sum_congr rfl hsum, ← Finset.card_filter]
    have hfs : (Finset.range max_bits).filter (fun i => i ∈ positions) =
        positions.toFinset := by
      ext i
      simp only [Finset.mem_filter, Finset.mem_range, List.mem_toFinset]
      exact ⟨fun h => h.2, fun h => ⟨hbound i h, h⟩⟩
    rw [hfs, List.toFinset_card_of_nodup hnd, hlen]
    omega
  · intro i hi
    exact hbound i ((hiff i).mp hi)

/-- Witness for C8 at concrete inputs: flipping the 2 sampled positions
`[0, 2]` of vector `5` within 3 bits gives Hamming distance 2. -/
theorem C8_mutate_vector_distance_witness :
    (validSample [0, 2] 2 3 ∧ 2 ≤ 3) ∧
    hamming_distance (mutate_vector 5 [0, 2]) 5 = 2 :=
  ⟨⟨by decide, by decide⟩,
   (C8_mutate_vector_distance 5 2 3 [0, 2] (by decide) (by decide)).1⟩

/-- C8 counterexample: the claim as stated quantifies over every requested
count `n`, but for `n = 2 > max_bits = 1` the code samples only
`min(2, 1) = 1` position, so the result differs from the input in 1 bit,
not 2 — `[0]` is a valid draw of `random.sample(range(1), min(2, 1))` and
gives Hamming distance 1 ≠ 2. -/
theorem C8_counterexample :
    validSample [0] 2 1 ∧
    hamming_distance (mutate_vector 0 [0]) 0 = 1 ∧ (1 : Nat) ≠ 2 := by
  decide

-- === encode_decisions / decode_decisions (models/loop.py) ===

/-- `encode_decisions(decision_flags, decision_map)`: OR together
`1 << decision_map[name]` for every flag that is set and named in the map. -/
def encode_decisions (decision_flags : List (String × Bool))
    (decision_map : List (String × Nat)) : Nat :=
  decision_flags.foldl (fun result p =>
    if p.2 && isKey decision_map p.1 then
      result ||| (1 <<< (dictFind decision_map p.1).getD 0)
    else result) 0

/-- `{v: k for k, v in decision_map.items()}`: a dict comprehension, so a
later key overwrites an earlier one at the same position. -/
def reverse_map (decision_map : List (String × Nat)) : List (Nat × String) :=
  decision_map.foldl (fun acc p => dictSet acc p.2 p.1) []

/-- `decode_decisions(vec, decision_map)`: the sorted names whose reverse-
mapped bit is set in the vector. -/
def decode_decisions (vec : Nat) (decision_map : List (String × Nat)) :
    List String :=
  sortStrings ((reverse_map decision_map).filterMap (fun p =>
    if vec &&& (1 <<< p.1) != 0 then some p.2 else none))

theorem dictFind_some {κ α : Type} [BEq κ] [LawfulBEq κ]
    (l : List (κ × α)) (k : κ) (v : α) (h : dictFind l k = some v) :
    (k, v) ∈ l := by
  unfold dictFind at h
  cases hf : l.find? (fun p => p.1 == k) with
  | none => rw [hf] at h; cases h
  | some e =>
    rw [hf] at h
    simp at h
    have he := List.find?_some hf
    simp only [beq_iff_eq] at he
    have hm := List.mem_of_find?_eq_some hf
    have hekv : e = (k, v) := by
      cases e
      simp_all
    exact hekv ▸ hm

theorem foldl_dictSet_eq (m : List (String × Nat)) :
    ∀ acc : List (Nat × String),
    (m.map (fun p => p.2)).Nodup →
    (∀ p ∈ m, p.2 ∉ acc.map (fun q => q.1)) →
    m.foldl (fun a p => dictSet a p.2 p.1) acc =
      acc ++ m.map (fun p => (p.2, p.1)) := by
  induction m with
  | nil => intro acc _ _; simp
  | cons p m ih =>
    intro acc hnd hdisj
    rw [List.map_cons] at hnd
    have hnd2 := List.nodup_cons.mp hnd
    simp only [List.foldl_cons]
    rw [dictSet_fresh _ _ _ (hdisj p (List.mem_cons_self _ _))]
    rw [ih (acc ++ [(p.2, p.1)]) hnd2.2 ?_]
    · simp
    · intro q hq
      simp only [List.map_append, List.mem_append]
      rintro (hc | hc)
      · exact hdisj q (List.mem_cons_of_mem _ hq) hc
      · simp only [List.map_cons, List.map_nil, List.mem_singleton] at hc
        exact hnd2.1 (hc ▸ List.mem_map_of_mem _ hq)

theorem reverse_map_eq (m : List (String × Nat))
    (h : (m.map (fun p => p.2)).Nodup) :
    reverse_map m = m.map (fun p => (p.2, p.1)) := by
  unfold reverse_map
  rw [foldl_dictSet_eq m [] h (by simp)]
  simp

theorem encode_go_testBit (m : List (String × Nat)) (b : Nat) :
    ∀ (flags : List (String × Bool)) (init : Nat),
    (flags.foldl (fun result p =>
      if p.2 && isKey m p.1 then
        result ||| (1 <<< (dictFind m p.1).getD 0)
      else result) init).testBit b =
    (init.testBit b || flags.any (fun p =>
      p.2 && isKey m p.1 && ((dictFind m p.1).getD 0 == b))) := by
  intro flags
  induction flags with
  | nil => intro init; simp
  | cons p flags ih =>
    intro init
    simp only [List.foldl_cons, List.any_cons]
    by_cases hc : (p.2 && isKey m p.1) = true
    · rw [if_pos hc, ih]
      rw [Nat.testBit_or, testBit_one_shift]
      by_cases hpb : ((dictFind m p.1).getD 0) = b <;>
        cases hib : init.testBit b <;>
        simp [hc, hpb, hib, Bool.or_assoc]
    · rw [if_neg hc, ih]
      have hc2 : (p.2 && isKey m p.1) = false := by simpa using hc
      simp [hc2]

theorem filterMap_ite {α β : Type} (l : List α) (c : α → Bool) (f : α → β) :
    l.filterMap (fun x => if c x then some (f x) else none) =
      (l.filter c).map f := by
  induction l with
  | nil => rfl
  | cons x l ih =>
    simp only [List.filterMap_cons, List.filter_cons]
    cases h : c x <;> simp [h, ih]

theorem and_one_shift_bne (vec p : Nat) :
    (vec &&& (1 <<< p) != 0) = vec.testBit p := by
  rw [Nat.shiftLeft_eq, one_mul, Nat.and_two_pow]
  cases h : vec.testBit p
  · simp
  · have h2 : (2 : Nat) ^ p ≠ 0 := pow_ne_zero p (by norm_num)
    simp [h2]

theorem decode_eq (vec : Nat) (m : List (String × Nat))
    (hvals : (m.map (fun p => p.2)).Nodup) :
    decode_decisions vec m =
      sortStrings ((m.filter (fun p => vec.testBit p.2)).map (fun p => p.1)) := by
  unfold decode_decisions
  rw [reverse_map_eq m hvals, List.filterMap_map]
  congr 1
  rw [show ((fun q : Nat × String =>
      if vec &&& (1 <<< q.1) != 0 then some q.2 else none) ∘
      (fun p : String × Nat => (p.2, p.1))) =
      (fun p : String × Nat => if vec.testBit p.2 then some p.1 else none) from
    funext (fun p => by simp [Function.comp, and_one_shift_bne])]
  rw [filterMap_ite]

/-- C7 amended: when the `decision_map` is an injective dict (distinct
names, distinct bit positions) and the flags dict names only mapped
decisions, decoding an encoded flag set returns exactly the sorted names
of the flags that are true. (For a non-injective map the dict-comprehension
reverse map overwrites entries and decode is not the inverse, see the
counterexample.) -/
theorem C7_encode_decode_inverse (decision_flags : List (String × Bool))
    (decision_map : List (String × Nat))
    (hmk : (decision_map.map (fun p => p.1)).Nodup)
    (hmv : (decision_map.map (fun p => p.2)).Nodup)
    (hfk : (decision_flags.map (fun p => p.1)).Nodup)
    (hsub : ∀ k ∈ decision_flags.map (fun p => p.1),
      k ∈ decision_map.map (fun p => p.1)) :
    decode_decisions (encode_decisions decision_flags decision_map) decision_map =
      sortStrings ((decision_flags.filter (fun p => p.2)).map (fun p => p.1)) := by
  rw [decode_eq _ _ hmv]
  apply sortStrings_eq_of_perm
  rw [List.perm_ext_iff_of_nodup]
  · intro x
    constructor
    · intro hx
      simp only [List.mem_map, List.mem_filter] at hx
      obtain ⟨p, ⟨hpm, hpt⟩, rfl⟩ := hx
      rw [show encode_decisions decision_flags decision_map =
          decision_flags.foldl (fun result q =>
            if q.2 && isKey decision_map q.1 then
              result ||| (1 <<< (dictFind decision_map q.1).getD 0)
            else result) 0 from rfl,
        encode_go_testBit] at hpt
      simp only [Nat.zero_testBit, Bool.false_or, List.any_eq_true,
        Bool.and_eq_true, beq_iff_eq] at hpt
      obtain ⟨q, hqf, ⟨hqt, hqk⟩, hqb⟩ := hpt
      obtain ⟨v, hv⟩ := (dictFind_isSome_iff decision_map q.1).mpr
        ((isKey_iff _ _).mp hqk)
      have hqv : (q.1, v) ∈ decision_map := dictFind_some _ _ _ hv
      rw [hv] at hqb
      simp only [Option.getD_some] at hqb
      have hentry : (q.1, v) = p :=
        List.inj_on_of_nodup_map hmv hqv hpm (by simpa using hqb)
      simp only [List.mem_map, List.mem_filter]
      exact ⟨q, ⟨hqf, hqt⟩, congrArg Prod.fst hentry⟩
    · intro hx
      simp only [List.mem_map, List.mem_filter] at hx
      obtain ⟨q, ⟨hqf, hqt⟩, rfl⟩ := hx
      have hkm : q.1 ∈ decision_map.map (fun p => p.1) :=
        hsub _ (List.mem_map_of_mem _ hqf)
      obtain ⟨v, hv⟩ := (dictFind_isSome_iff decision_map q.1).mpr hkm
      have hqv : (q.1, v) ∈ decision_map := dictFind_some _ _ _ hv
      simp only [List.mem_map, List.mem_filter]
      refine ⟨(q.1, v), ⟨hqv, ?_⟩, rfl⟩
      rw [show encode_decisions decision_flags decision_map =
          decision_flags.foldl (fun result r =>
            if r.2 && isKey decision_map r.1 then
              result ||| (1 <<< (dictFind decision_map r.1).getD 0)
            else result) 0 from rfl,
        encode_go_testBit]
      simp only [Nat.zero_testBit, Bool.false_or, List.any_eq_true,
        Bool.and_eq_true, beq_iff_eq]
      exact ⟨q, hqf, ⟨hqt, (isKey_iff _ _).mpr hkm⟩, by rw [hv]; rfl⟩
  · exact ((List.filter_sublist _).map _).nodup hmk
  · exact ((List.filter_sublist _).map _).nodup hfk

/-- Witness for C7 at a concrete injective map and flag dict. -/
theorem C7_encode_decode_inverse_witness :
    (((([("a", 0), ("b", 1)] : List (String × Nat)).map (fun p => p.1)).Nodup ∧
      (([("a", 0), ("b", 1)] : List (String × Nat)).map (fun p => p.2)).Nodup ∧
      (([("a", true), ("b", false)] : List (String × Bool)).map
        (fun p => p.1)).Nodup) ∧
     ∀ k ∈ ([("a", true), ("b", false)] : List (String × Bool)).map (fun p => p.1),
       k ∈ ([("a", 0), ("b", 1)] : List (String × Nat)).map (fun p => p.1)) ∧
    decode_decisions
        (encode_decisions [("a", true), ("b", false)] [("a", 0), ("b", 1)])
        [("a", 0), ("b", 1)] =
      sortStrings ((([("a", true), ("b", false)] : List (String × Bool)).filter
        (fun p => p.2)).map (fun p => p.1)) :=
  ⟨⟨⟨by decide, by decide, by decide⟩, by decide⟩,
   C7_encode_decode_inverse [("a", true), ("b", false)] [("a", 0), ("b", 1)]
     (by decide) (by decide) (by decide) (by decide)⟩

/-- C7 counterexample: the claim as stated quantifies over every
`decision_map`, but for the non-injective map `{"a": 0, "b": 0}` with only
the `"a"` flag set, the reverse dict comprehension keeps the last entry
for position 0, so decoding returns `["b"]` instead of the sorted true
flags `["a"]`. -/
theorem C7_counterexample :
    decode_decisions (encode_decisions [("a", true)] [("a", 0), ("b", 0)])
        [("a", 0), ("b", 0)] = ["b"] ∧
    sortStrings ((([("a", true)] : List (String × Bool)).filter
        (fun p => p.2)).map (fun p => p.1)) = ["a"] ∧
    (["b"] : List String) ≠ ["a"] := by
  decide

end LoopEng
